import Mathlib

/-!
Verification of the idoom spreadsheet/metrics pipeline.

This file gives a shallow embedding of the link-discovery, layout-inference,
cell-placement, writer and job-orchestration logic of the repository:

* `src/supabase/functions/process-excel/index.ts` (server orchestrator,
  scanner, `detectFormat`, `findSafeViewsCell`, `fetchWithApify`,
  `fetchSingleHikerUrl`, `generateDemoViews`, `processJob`);
* `src/unnamed/part_006` (client library: `parseExcelFile` format
  detection, `findSafeViewsCell`, `updateExcelWithViews`);
* `src/src/hooks/useAnalytics.tsx` (`usePauseJob`, `useResumeJob`).

Modelling conventions: JS numbers that hold view counts are modelled as
`Int`; `Math.random()` draws as exact rationals in `[0,1)`; ExcelJS cells
are abstracted to the string that `getCellValue` extracts from them
(plain text, hyperlink target, or concatenated rich-text runs) together
with JS falsiness of the raw value; the blob store and the 50ms delays
have no effect on the job record and are not modelled.
-/

namespace Idoom

/-- A cell value as seen through ExcelJS after `getCellValue`:
`empty` models a missing/null cell, `num` a JS number (integral here),
`str` a string (this also stands for hyperlink / rich-text cells, which
`getCellValue` collapses to a string). -/
inductive JSVal where
  | empty : JSVal
  | num : Int → JSVal
  | str : String → JSVal
deriving DecidableEq, Repr

/-- Decimal digit characters, used to model JS `String(number)`. -/
def digitChar (n : Nat) : Char :=
  match n with
  | 0 => '0' | 1 => '1' | 2 => '2' | 3 => '3' | 4 => '4'
  | 5 => '5' | 6 => '6' | 7 => '7' | 8 => '8' | _ => '9'

/-- Fuel-driven digit expansion (structural recursion so that proofs can
evaluate it); `natDigs` supplies enough fuel. -/
def natDigsF : Nat → Nat → List Char
  | 0, n => [digitChar n]
  | fuel + 1, n =>
    if n < 10 then [digitChar n]
    else natDigsF fuel (n / 10) ++ [digitChar (n % 10)]

/-- Decimal digits of a natural number, most-significant first
(model of the digits JS `String(n)` produces for a nonnegative safe
integer). -/
def natDigs (n : Nat) : List Char := natDigsF n n

/-- JS `String(n)` for an integral number. -/
def intToDecString (n : Int) : String :=
  if n < 0 then ⟨'-' :: natDigs n.natAbs⟩ else ⟨natDigs n.toNat⟩

/-- `getCellValue` (index.ts lines 63-73, part_006 lines 37-51): the raw
value is first checked for JS falsiness (`!cell.value`), so a numeric `0`
and the empty string both read back as `''`; otherwise numbers print in
decimal and strings pass through. -/
def getCellValue : JSVal → String
  | .empty => ""
  | .num n => if n = 0 then "" else intToDecString n
  | .str s => s

/-- Whitespace recognised by the JS `trim` model (ASCII subset). -/
def isWsChar (c : Char) : Bool :=
  c = ' ' || c = '\t' || c = '\n' || c = '\r' || c = '\x0b' || c = '\x0c'

def jsTrimL (l : List Char) : List Char := l.dropWhile isWsChar

def jsTrimCore (l : List Char) : List Char := (jsTrimL ((jsTrimL l).reverse)).reverse

/-- Model of JS `String.prototype.trim`. -/
def jsTrim (s : String) : String := ⟨jsTrimCore s.data⟩

def quoteChar : Char := Char.ofNat 34

def apostChar : Char := Char.ofNat 39

def isQuote (c : Char) : Bool := c = quoteChar || c = apostChar

def stripTrail (l1 : List Char) : List Char :=
  match l1.getLast? with
  | some c => if isQuote c then l1.dropLast else l1
  | none => l1

def stripQuotesL (l : List Char) : List Char :=
  match l with
  | c :: rest => if isQuote c then stripTrail rest else stripTrail (c :: rest)
  | [] => stripTrail []

/-- Model of `.replace(/^["']|["']$/g, '')`: one leading and one trailing
quote character are removed. -/
def stripQuotes (s : String) : String := ⟨stripQuotesL s.data⟩

/-- `value.trim().replace(/^["']|["']$/g, '')`, the cleaning both URL
helpers apply before matching. -/
def cleanStr (s : String) : String := stripQuotes (jsTrim s)

/-- ASCII lower-casing, modelling the `/i` flag of the URL regexes. -/
def lcChar (c : Char) : Char :=
  if 65 ≤ c.toNat ∧ c.toNat ≤ 90 then Char.ofNat (c.toNat + 32) else c

/-- Case-insensitively consume the (lowercase) pattern `p` from the front
of `l`; return the remainder on success. -/
def ciConsume : List Char → List Char → Option (List Char)
  | [], l => some l
  | _ :: _, [] => none
  | p :: ps, c :: cs => if lcChar c = p then ciConsume ps cs else none

/-- Consume `instagram.com` or `instagr.am` (the domain alternation of
both regexes) at the head of `l`. -/
def domTail (l : List Char) : Option (List Char) :=
  match ciConsume "instagram.com".data l with
  | some r => some r
  | none => ciConsume "instagr.am".data l

/-- The identifier character class `[A-Za-z0-9_-]`. -/
def isIdChar (c : Char) : Bool := c.isAlpha || c.isDigit || c = '_' || c = '-'

/-- After a path segment: require `/` then a nonempty identifier run;
return the (original-case) identifier, the regex capture group. -/
def slashId (l : List Char) : Option (List Char) :=
  match l with
  | c :: rest =>
    if c = '/' then
      let run := rest.takeWhile isIdChar
      if run = [] then none else some run
    else none
  | [] => none

/-- Try the path-segment alternatives `(?:reel|reels|p|tv)` in order,
with backtracking, each followed by `/<id>`. -/
def segsTry : List (List Char) → List Char → Option (List Char)
  | [], _ => none
  | s :: ss, l =>
    match ciConsume s l with
    | some r =>
      match slashId r with
      | some idRun => some idRun
      | none => segsTry ss l
    | none => segsTry ss l

def segNames : List (List Char) := ["reel".data, "reels".data, "p".data, "tv".data]

/-- After the domain: `/(?:reel|reels|p|tv)/([A-Za-z0-9_-]+)`. -/
def segIdTail (l : List Char) : Option (List Char) :=
  match l with
  | c :: rest => if c = '/' then segsTry segNames rest else none
  | [] => none

/-- Does the full URL pattern match starting exactly here?  Returns the
captured identifier. -/
def urlMatchAt (l : List Char) : Option (List Char) :=
  match domTail l with
  | some r => segIdTail r
  | none => none

/-- Leftmost match of `INSTAGRAM_URL_PATTERN`; the optional
`https?://`/`www.` prefixes never constrain an unanchored `test`/`match`,
so the match is determined by the domain-and-path core. -/
def firstMatch : List Char → Option (List Char)
  | [] => none
  | c :: cs =>
    match urlMatchAt (c :: cs) with
    | some idRun => some idRun
    | none => firstMatch cs

/-- Unanchored test of `INSTAGRAM_DOMAIN_PATTERN`: the domain occurs
somewhere in the string. -/
def domFound : List Char → Bool
  | [] => false
  | c :: cs => (domTail (c :: cs)).isSome || domFound cs

/-- `isInstagramUrl` (index.ts lines 17-21; part_006 lines 24-28):
trim, strip one layer of quotes, then test the URL pattern or the
domain-only pattern. -/
def isInstagramUrl (url : String) : Bool :=
  let t := cleanStr url
  (firstMatch t.data).isSome || domFound t.data

/-- `extractInstagramId` (index.ts lines 24-29; part_006 lines 30-35):
the capture group of the first URL-pattern match, or `none`. -/
def extractInstagramId (url : String) : Option String :=
  let t := cleanStr url
  (firstMatch t.data).map fun l => ⟨l⟩

/-- Decimal digit test used by the JS `Number(...)` model. -/
def isDig (c : Char) : Bool := 48 ≤ c.toNat && c.toNat ≤ 57

def spanDigits (l : List Char) : List Char × List Char :=
  (l.takeWhile isDig, l.dropWhile isDig)

/-- Optional exponent suffix `([eE][+-]?digits)?` consuming the rest. -/
def expOk (l : List Char) : Bool :=
  match l with
  | [] => true
  | c :: rest =>
    if c = 'e' || c = 'E' then
      let body := match rest with
        | s :: r2 => if s = '+' || s = '-' then r2 else rest
        | [] => rest
      let p := spanDigits body
      !p.1.isEmpty && p.2.isEmpty
    else false

/-- Decimal mantissa: `digits[.digits?]` or `.digits`, then exponent. -/
def mantissaOk (l : List Char) : Bool :=
  let p := spanDigits l
  if p.1.isEmpty then
    match p.2 with
    | c :: r2 =>
      if c = '.' then
        let q := spanDigits r2
        !q.1.isEmpty && expOk q.2
      else false
    | [] => false
  else
    match p.2 with
    | c :: r2 =>
      if c = '.' then
        let q := spanDigits r2
        expOk q.2
      else expOk p.2
    | [] => true

def infinityOk (l : List Char) : Bool := decide (l = "Infinity".data)

/-- Signed decimal or Infinity. -/
def decNumOk (l : List Char) : Bool :=
  match l with
  | c :: rest =>
    if c = '+' || c = '-' then mantissaOk rest || infinityOk rest
    else mantissaOk (c :: rest) || infinityOk (c :: rest)
  | [] => false

def isHexDig (c : Char) : Bool :=
  isDig c || (97 ≤ (lcChar c).toNat && (lcChar c).toNat ≤ 102)

/-- `0x`/`0b`/`0o` literals accepted by JS `Number`. -/
def radixOk (l : List Char) : Bool :=
  match l with
  | z :: x :: rest =>
    if z = '0' && (x = 'x' || x = 'X') then !rest.isEmpty && rest.all isHexDig
    else if z = '0' && (x = 'b' || x = 'B') then
      !rest.isEmpty && rest.all fun c => c = '0' || c = '1'
    else if z = '0' && (x = 'o' || x = 'O') then
      !rest.isEmpty && rest.all fun c => 48 ≤ c.toNat && c.toNat ≤ 55
    else false
  | _ => false

/-- Model of JS `isNaN(Number(s))`: the empty (or all-whitespace) string
converts to `0`, otherwise the trimmed string must be a signed decimal,
an Infinity, or a radix literal. -/
def jsNumberIsNaN (s : String) : Bool :=
  let t := jsTrim s
  if t = "" then false
  else !(radixOk t.data || decNumOk t.data)

def charDigVal (c : Char) : Nat := c.toNat - 48

def digsToNat (l : List Char) : Nat := l.foldl (fun a c => a * 10 + charDigVal c) 0

def parseIntDigs (l : List Char) (sign : Int) : Option Int :=
  let d := l.takeWhile isDig
  if d.isEmpty then none else some (sign * (digsToNat d : Int))

/-- Model of JS `parseInt(s, 10)`: skip leading whitespace, optional
sign, then a nonempty digit run. -/
def jsParseInt (s : String) : Option Int :=
  match s.data.dropWhile isWsChar with
  | c :: rest =>
    if c = '+' then parseIntDigs rest 1
    else if c = '-' then parseIntDigs rest (-1)
    else parseIntDigs (c :: rest) 1
  | [] => none

/-- A value in the `Record<string, number | string>` views maps. -/
inductive MVal where
  | num : Int → MVal
  | str : String → MVal
deriving DecidableEq, Repr

/-- First-match association-list lookup (JS `Map.get` / property read;
keys are unique in the maps the code builds). -/
def lookupA : List (String × MVal) → String → Option MVal
  | [], _ => none
  | (k, v) :: rest, s => if k = s then some v else lookupA rest s

/-- The spec's tagged `MetricOutcome`. -/
inductive MetricOutcome where
  | success : Int → MetricOutcome
  | notAvailable : MetricOutcome
  | error : MetricOutcome
deriving DecidableEq, Repr

/-- The map value every fetch strategy produces for an outcome:
`Success n ↦ n`, `NotAvailable ↦ 'N/A'`, `Error ↦ 'Error'`. -/
def outcomeVal : MetricOutcome → MVal
  | .success n => .num n
  | .notAvailable => .str "N/A"
  | .error => .str "Error"

/-- The cell value the writer stores for an outcome (after its
`parseInt` / `isNaN` dance the integer lands as a number and the
sentinels as text). -/
def renderOutcome : MetricOutcome → JSVal
  | .success n => .num n
  | .notAvailable => .str "N/A"
  | .error => .str "Error"

/-- `cell.value = isNaN(numericViews) ? views : numericViews` with
`numericViews = typeof views === 'string' ? parseInt(views, 10) : views`
(index.ts lines 509-511; part_006 lines 345-346). -/
def writeVal : MVal → JSVal
  | .num n => .num n
  | .str s =>
    match jsParseInt s with
    | some k => .num k
    | none => .str s

/-! ## Worksheet model and the server pipeline
(`src/supabase/functions/process-excel/index.ts`) -/

/-- A single-sheet workbook: a finite grid of cells, 1-indexed.
`eachRow`/`eachCell` with `includeEmpty: false` iterate the populated
cells in row-major order; iterating empty cells too is harmless because
they read back as `''`, which matches no pattern. -/
structure Grid where
  rows : Nat
  cols : Nat
  val : Nat → Nat → JSVal

def cellStr (g : Grid) (r c : Nat) : String := getCellValue (g.val r c)

def range1 (n : Nat) : List Nat := (List.range n).map (· + 1)

/-- A scanned link row of `processJob` (index.ts lines 358-377): only
cells matching the URL test AND yielding an extractable id become links;
domain-only matches are dropped. -/
structure SLink where
  row : Nat
  col : Nat
  url : String
  igId : String
deriving DecidableEq, Repr

/-- The server-side Link Scanner (index.ts lines 358-377). -/
def scanServer (g : Grid) : List SLink :=
  (range1 g.rows).flatMap fun r =>
    (range1 g.cols).filterMap fun c =>
      let v := cellStr g r c
      if isInstagramUrl v then
        match extractInstagramId (cleanStr v) with
        | some id => some ⟨r, c, cleanStr v, id⟩
        | none => none
      else none

inductive FileFormat where
  | vertical
  | horizontalBelow
  | alternating
deriving DecidableEq, Repr

/-- ASCII lower-casing of a whole string (model of `toLowerCase` on the
ASCII range). -/
def lcStr (s : String) : String := ⟨s.data.map lcChar⟩

/-- `isViewsHeader` (index.ts lines 56-61). -/
def isViewsHeader (value : String) : Bool :=
  if value = "" then false
  else
    let lower := jsTrim (lcStr value)
    lower = "views" || lower = "view" || lower = "visualizações" ||
    lower = "vistas" || lower = "vues" || lower = "aufrufe"

/-- Some adjacent pair of the sorted list differs by exactly 2. -/
def adjGap2 : List Nat → Bool
  | a :: b :: rest => (b - a = 2 : Bool) || adjGap2 (b :: rest)
  | _ => false

/-- The per-row gap test of `detectFormat` (index.ts lines 80-98): group
link columns by row; alternating as soon as one row's sorted columns
contain some adjacent gap of exactly 2. -/
def rowGroupGap2 (links : List (Nat × Nat)) : Bool :=
  ((links.map Prod.fst).eraseDups).any fun r =>
    let cs := (links.filter fun p => p.1 = r).map Prod.snd
    decide (cs.length ≥ 2) && adjGap2 (List.insertionSort (· ≤ ·) cs)

/-- `detectFormat` (index.ts lines 76-117).  The final header probe
returns `vertical` on both branches, exactly as in the source. -/
def detectFormat (g : Grid) (links : List (Nat × Nat)) : FileFormat :=
  if links.length < 2 then .vertical
  else if rowGroupGap2 links then .alternating
  else
    match links with
    | l1 :: l2 :: _ =>
      if l1.1 = l2.1 then .horizontalBelow
      else
        let rightValue := cellStr g l1.1 (l1.2 + 1)
        if isViewsHeader rightValue || !isInstagramUrl rightValue then .vertical
        else .vertical
    | _ => .vertical

def memPos (all : List (Nat × Nat)) (p : Nat × Nat) : Bool := all.contains p

/-- `findSafeViewsCell` (index.ts lines 120-164).  Note that the
`(row+2, col)` and `(row+1, col)` fallbacks are returned without any
safety check, and `allLinks` holds only link cells, not already-assigned
targets. -/
def findSafeViewsCell (g : Grid) (link : Nat × Nat) (format : FileFormat)
    (allLinks : List (Nat × Nat)) : Nat × Nat :=
  match format with
  | .horizontalBelow =>
    let targetRow := link.1 + 1
    let targetCol := link.2
    let value := cellStr g targetRow targetCol
    if !isInstagramUrl value && !memPos allLinks (targetRow, targetCol) then
      (targetRow, targetCol)
    else (link.1 + 2, link.2)
  | _ =>
    let targetCol := link.2 + 1
    let rightValue := cellStr g link.1 targetCol
    if isInstagramUrl rightValue || memPos allLinks (link.1, targetCol) then
      let targetCol2 := link.2 + 2
      let nextValue := cellStr g link.1 targetCol2
      if isInstagramUrl nextValue || memPos allLinks (link.1, targetCol2) then
        (link.1 + 1, link.2)
      else (link.1, targetCol2)
    else (link.1, targetCol)

/-- A fully planned link (`LinkInfo` of index.ts lines 31-38). -/
structure LinkInfo where
  row : Nat
  col : Nat
  url : String
  igId : String
  viewsRow : Nat
  viewsCol : Nat
deriving DecidableEq, Repr

/-- The planning phase of `processJob` (index.ts lines 358-396): scan,
detect the format, then map `findSafeViewsCell` over the links with the
set of all link cells. -/
def resolveLinks (g : Grid) : List LinkInfo :=
  let raw := scanServer g
  let format := detectFormat g (raw.map fun l => (l.row, l.col))
  let allLinkCells := raw.map fun l => (l.row, l.col)
  raw.map fun l =>
    let t := findSafeViewsCell g (l.row, l.col) format allLinkCells
    ⟨l.row, l.col, l.url, l.igId, t.1, t.2⟩

/-! ## Job record and orchestrator traces -/

inductive JStatus where
  | pending
  | processing
  | paused
  | completed
  | failed
deriving DecidableEq, Repr

/-- The `processing_jobs` row fields the subsystem touches. -/
structure JobRec where
  status : JStatus
  totalLinks : Nat
  processedLinks : Nat
  failedLinks : Nat
  pausedAt : Option String
  completedAt : Option String
  resultPath : Option String
  errorMessage : Option String
deriving DecidableEq, Repr

/-- A freshly created job row (status defaults to `pending`,
counters to 0). -/
def initJob : JobRec := ⟨.pending, 0, 0, 0, none, none, none, none⟩

/-- `update({ status: 'processing' }).eq('id', jobId)` (index.ts lines
330-334): the update is keyed only by the job id — it carries no
condition on the current status. -/
def updStatusProcessing (j : JobRec) : JobRec := { j with status := .processing }

/-- `update({ total_links: n })` (index.ts lines 399-402). -/
def updTotal (n : Nat) (j : JobRec) : JobRec := { j with totalLinks := n }

/-- Demo-mode checkpoint `update({ processed_links })` (index.ts 427-430). -/
def updProcessed (p : Nat) (j : JobRec) : JobRec := { j with processedLinks := p }

/-- Hiker/Apify checkpoint `update({ processed_links, failed_links })`
(index.ts 452-455 and 488-491). -/
def updProcessedFailed (p f : Nat) (j : JobRec) : JobRec :=
  { j with processedLinks := p, failedLinks := f }

/-- The completion update (index.ts lines 535-544); the result path and
timestamp are modelled by constants. -/
def updCompleted (n f : Nat) (j : JobRec) : JobRec :=
  { j with status := .completed, processedLinks := n, failedLinks := f,
           resultPath := some "processed", completedAt := some "now" }

/-- The catch-all failure update (index.ts lines 550-556). -/
def updFailed (msg : String) (j : JobRec) : JobRec :=
  { j with status := .failed, errorMessage := some msg }

/-- `usePauseJob` (useAnalytics.tsx lines 386-407): sets status Paused
and persists `paused_at`. -/
def updPause (t : String) (j : JobRec) : JobRec :=
  { j with status := .paused, pausedAt := some t }

/-- `useResumeJob` (useAnalytics.tsx lines 409-438), first update. -/
def updResume (j : JobRec) : JobRec :=
  { j with status := .processing, pausedAt := none }

/-- An orchestrator event: an outbound provider request, or a job-record
update.  The orchestrator reads the job record once at startup and never
again, so its event list does not depend on the record's state. -/
inductive Ev where
  | fetch : String → Ev
  | upd : (JobRec → JobRec) → Ev

def isFetchEv : Ev → Bool
  | .fetch _ => true
  | .upd _ => false

def fetchUrls (evs : List Ev) : List String :=
  evs.filterMap fun e =>
    match e with
    | .fetch u => some u
    | .upd _ => none

def applyEv (j : JobRec) : Ev → JobRec
  | .fetch _ => j
  | .upd u => u j

def applyEvs (j : JobRec) (evs : List Ev) : JobRec := evs.foldl applyEv j

/-- All record states along an event list, starting state included. -/
def recStates (j : JobRec) : List Ev → List JobRec
  | [] => [j]
  | e :: rest => j :: recStates (applyEv j e) rest

/-! ## Fetch strategies -/

/-- Demo (synthetic) mode events (index.ts lines 419-435): no fetches, a
`processed_links` checkpoint every 10 items or on the final item,
`failed_links` never incremented, then the completion update with
`failedCount = 0`. -/
def demoEvents (n : Nat) : List Ev :=
  .upd updStatusProcessing :: .upd (updTotal n) ::
    ((List.range n).filterMap fun i =>
      if (i + 1) % 10 = 0 || i = n - 1 then some (.upd (updProcessed (i + 1)))
      else none)
    ++ [.upd (updCompleted n 0)]

/-- The `HikerResult` wire shape (index.ts lines 49-53). -/
structure HikerResult where
  view_count : Option Int
  play_count : Option Int
  video_play_count : Option Int

/-- `result.view_count ?? result.play_count ?? result.video_play_count`,
defaulting to `'N/A'` (index.ts lines 277-281). -/
def hikerViews (r : HikerResult) : MVal :=
  match r.view_count <|> r.play_count <|> r.video_play_count with
  | some v => .num v
  | none => .str "N/A"

/-- `fetchSingleHikerUrl` (index.ts lines 254-286): no extractable id
gives `('', 'Error')`; an HTTP error or exception (modelled by the
oracle returning `none`) gives `'Error'`; otherwise the parsed views. -/
def fetchSingleHikerUrl (http : String → Option HikerResult) (url : String) :
    String × MVal :=
  match extractInstagramId url with
  | none => ("", .str "Error")
  | some igId =>
    match http url with
    | none => (igId, .str "Error")
    | some r => (igId, hikerViews r)

/-- The hiker per-item loop (index.ts lines 441-456): fetch each URL,
count a failure when the returned id is truthy and the views are the
`'Error'` sentinel, and checkpoint `(i+1, failedCount)` after every
item.  Returns the events plus the final `failedCount`. -/
def hikerGo (http : String → Option HikerResult) :
    List SLink → Nat → Nat → List Ev × Nat
  | [], _, f => ([], f)
  | l :: rest, i, f =>
    let res := fetchSingleHikerUrl http l.url
    let f' := if res.1 ≠ "" && res.2 = .str "Error" then f + 1 else f
    let t := hikerGo http rest (i + 1) f'
    (.fetch l.url :: .upd (updProcessedFailed (i + 1) f') :: t.1, t.2)

/-- The whole hiker-mode invocation's event list: claim the status,
record the total, run the loop, then the completion update.  The
function takes no job-record argument because `processJob` never
re-reads the record during processing. -/
def hikerTrace (http : String → Option HikerResult) (links : List SLink) :
    List Ev :=
  let n := links.length
  let t := hikerGo http links 0 0
  .upd updStatusProcessing :: .upd (updTotal n) :: t.1 ++ [.upd (updCompleted n t.2)]

/-- The `ApifyResult` wire shape (index.ts lines 42-47). -/
structure ApifyResult where
  inputUrl : Option String
  url : Option String
  videoPlayCount : Option Int
  playCount : Option Int

/-- `result.videoPlayCount ?? result.playCount`, defaulting to `'N/A'`
(index.ts lines 235-236). -/
def apifyViews (r : ApifyResult) : MVal :=
  match r.videoPlayCount <|> r.playCount with
  | some v => .num v
  | none => .str "N/A"

/-- JS object property assignment on a `Record`: replace the value if
the key exists, else append (insertion order preserved). -/
def insertRep : List (String × MVal) → String → MVal → List (String × MVal)
  | [], k, v => [(k, v)]
  | (k0, v0) :: rest, k, v =>
    if k0 = k then (k0, v) :: rest else (k0, v0) :: insertRep rest k v

def mergeMap (m bm : List (String × MVal)) : List (String × MVal) :=
  bm.foldl (fun a kv => insertRep a kv.1 kv.2) m

/-- First phase of `fetchWithApify`'s map (index.ts lines 228-240):
insert each dataset item's views under its extracted id. -/
def apifyResultsMap (results : List ApifyResult) : List (String × MVal) :=
  results.foldl (fun m r =>
    match r.inputUrl <|> r.url with
    | some u =>
      match extractInstagramId u with
      | some igId => insertRep m igId (apifyViews r)
      | none => m
    | none => m) []

/-- The map `fetchWithApify` builds (index.ts lines 228-251): the
results map, then every requested id still absent marked `'Error'`
(index.ts lines 242-248). -/
def buildApifyMap (results : List ApifyResult) (urls : List String) :
    List (String × MVal) :=
  urls.foldl (fun m u =>
    match extractInstagramId u with
    | some igId =>
      if (lookupA m igId).isSome then m else insertRep m igId (.str "Error")
    | none => m) (apifyResultsMap results)

def maxAttempts : Nat := 24

/-- The polling loop of `fetchWithApify` (index.ts lines 194-214): poll
the run status up to 24 times; break on `SUCCEEDED`, throw on
`FAILED`/`ABORTED`, otherwise sleep and retry.  Returns the attempt
counter at loop exit. -/
def pollGo (oracle : Nat → String) : Nat → Nat → Except String Nat
  | 0, att => .ok att
  | fuel + 1, att =>
    let status := oracle att
    if status = "SUCCEEDED" then .ok att
    else if status = "FAILED" || status = "ABORTED" then
      .error ("Actor run " ++ status)
    else pollGo oracle fuel (att + 1)

/-- The poll phase including the post-loop timeout check (index.ts lines
216-218). -/
def pollApify (oracle : Nat → String) : Except String Nat :=
  match pollGo oracle maxAttempts 0 with
  | .error e => .error e
  | .ok att => if att ≥ maxAttempts then .error "Actor run timed out" else .ok att

/-- `fetchWithApify` (index.ts lines 166-252) from the point the actor
run has started: poll, then build the id-keyed views map from the
dataset items.  Any thrown error surfaces as `.error`. -/
def fetchWithApify (urls : List String) (pollOracle : Nat → String)
    (results : List ApifyResult) : Except String (List (String × MVal)) :=
  match pollApify pollOracle with
  | .error e => .error e
  | .ok _ => .ok (buildApifyMap results urls)

def countError (m : List (String × MVal)) : Nat :=
  (m.filter fun kv => kv.2 = .str "Error").length

def countIds (urls : List String) : Nat :=
  (urls.filter fun u => (extractInstagramId u).isSome).length

/-- The catch branch of the Apify batch loop (index.ts lines 475-485):
set every extractable id of the batch to `'Error'`. -/
def markErrors (vm : List (String × MVal)) (urls : List String) :
    List (String × MVal) :=
  urls.foldl (fun m u =>
    match extractInstagramId u with
    | some igId => insertRep m igId (.str "Error")
    | none => m) vm

/-- The Apify batch loop (index.ts lines 462-492): take batches of 10;
on success merge the batch map and add its `'Error'` count to
`failedCount`, on a thrown error mark the whole batch; then checkpoint
`(min (i+10) n, failedCount)`.  Returns events, the accumulated views
map, and the final `failedCount`. -/
def apifyGoF (fetch : List String → Except String (List (String × MVal)))
    (n : Nat) :
    Nat → List String → Nat → List (String × MVal) → Nat →
    List Ev × List (String × MVal) × Nat
  | _, [], _, vm, f => ([], vm, f)
  | 0, _ :: _, _, vm, f => ([], vm, f)
  | fuel + 1, u :: us, i, vm, f =>
    let batch := (u :: us).take 10
    let rest := (u :: us).drop 10
    let step : List (String × MVal) × Nat :=
      match fetch batch with
      | .ok bm => (mergeMap vm bm, f + countError bm)
      | .error _ => (markErrors vm batch, f + countIds batch)
    let p := min (i + 10) n
    let t := apifyGoF fetch n fuel rest (i + 10) step.1 step.2
    (.fetch "batch" :: .upd (updProcessedFailed p step.2) :: t.1, t.2)

def apifyGo (fetch : List String → Except String (List (String × MVal)))
    (n : Nat) (urls : List String) (i : Nat) (vm : List (String × MVal))
    (f : Nat) : List Ev × List (String × MVal) × Nat :=
  apifyGoF fetch n urls.length urls i vm f

/-- The whole Apify-mode invocation's events, views map and final
failure count. -/
def apifyRun (fetch : List String → Except String (List (String × MVal)))
    (links : List SLink) : List Ev × List (String × MVal) × Nat :=
  let n := links.length
  apifyGo fetch n (links.map (·.url)) 0 [] 0

def apifyTrace (fetch : List String → Except String (List (String × MVal)))
    (links : List SLink) : List Ev :=
  let n := links.length
  let t := apifyRun fetch links
  .upd updStatusProcessing :: .upd (updTotal n) :: t.1 ++ [.upd (updCompleted n t.2.2)]

def apifyMapOf (fetch : List String → Except String (List (String × MVal)))
    (links : List SLink) : List (String × MVal) :=
  (apifyRun fetch links).2.1

/-! ## Client library (`src/unnamed/part_006`): classifier and writer -/

/-- A link found by the client scan (part_006 lines 75-89): any cell
passing `isInstagramUrl`, id or not. -/
structure CLink where
  row : Nat
  col : Nat
  url : String
deriving DecidableEq, Repr

/-- The client Link Scanner (part_006 lines 75-89). -/
def scanClient (g : Grid) : List CLink :=
  (range1 g.rows).flatMap fun r =>
    (range1 g.cols).filterMap fun c =>
      let v := cellStr g r c
      if isInstagramUrl v then some ⟨r, c, cleanStr v⟩ else none

/-- `uniqueLinkCols` (part_006 lines 79, 109): the distinct link columns,
sorted ascending. -/
def uniqueLinkCols (g : Grid) : List Nat :=
  List.insertionSort (· ≤ ·) ((scanClient g).map (·.col)).eraseDups

/-- `gaps.every(g => g === 2)` on the sorted distinct columns
(part_006 lines 115-120). -/
def gapsTwo : List Nat → Bool
  | a :: b :: rest => (b - a = 2 : Bool) && gapsTwo (b :: rest)
  | _ => true

/-- `hasMultipleLinksPerRow` (part_006 lines 96-107). -/
def hasMultipleLinksPerRow (links : List CLink) : Bool :=
  links.any fun l => decide (2 ≤ (links.filter fun l2 => l2.row = l.row).length)

/-- `!value || value.trim() === ''`. -/
def jsIsEmptyStr (v : String) : Bool := v = "" || jsTrim v = ""

/-- One link's vote in the right-vs-below majority heuristic
(part_006 lines 131-172). -/
def voteOne (g : Grid) (l : CLink) : Nat × Nat :=
  let rightValue := cellStr g l.row (l.col + 1)
  let belowValue := cellStr g (l.row + 1) l.col
  if isInstagramUrl belowValue then (1, 0)
  else if isInstagramUrl rightValue then (0, 1)
  else
    let rightIsEmpty := jsIsEmptyStr rightValue
    let rightIsNumeric := !jsNumberIsNaN rightValue
    let belowIsEmpty := jsIsEmptyStr belowValue
    let belowIsNumeric := !jsNumberIsNaN belowValue
    if (rightIsEmpty || rightIsNumeric) && !belowIsEmpty && !belowIsNumeric then (1, 0)
    else if (belowIsEmpty || belowIsNumeric) && !rightIsEmpty && !rightIsNumeric then (0, 1)
    else if rightIsEmpty && belowIsEmpty then (1, 0)
    else if rightIsNumeric && !belowIsNumeric then (1, 0)
    else if belowIsNumeric && !rightIsNumeric then (0, 1)
    else (0, 0)

/-- `(preferRight, preferBelow)` accumulated over all links. -/
def voteTally (g : Grid) (links : List CLink) : Nat × Nat :=
  links.foldl (fun acc l => let v := voteOne g l; (acc.1 + v.1, acc.2 + v.2)) (0, 0)

/-- The format decision of the client `parseExcelFile` (part_006 lines
104-180): the all-gaps-2 alternating check runs first and short-circuits
the majority vote; the vote can only turn a non-alternating document
into `horizontalBelow` (the file's `'horizontal'`). -/
def clientFormat (g : Grid) : FileFormat :=
  let links := scanClient g
  let cols := uniqueLinkCols g
  let fmt1 : FileFormat :=
    if decide (2 ≤ cols.length) && gapsTwo cols then .alternating else .vertical
  if fmt1 ≠ .alternating && hasMultipleLinksPerRow links then
    let t := voteTally g links
    if t.2 > t.1 then .horizontalBelow else fmt1
  else fmt1

/-! ## Client writer (`part_006` lines 269-357) -/

/-- A worksheet as a mutable cell store (writes may land outside the
scanned bounds, which ExcelJS permits). -/
def Ws : Type := Nat × Nat → JSVal

def store (ws : Ws) (p : Nat × Nat) (v : JSVal) : Ws :=
  fun q => if q = p then v else ws q

/-- A planned link as consumed by the writer (`LinkInfo` of part_006). -/
structure PLink where
  row : Nat
  col : Nat
  viewsRow : Nat
  viewsCol : Nat
  url : String
deriving DecidableEq, Repr

/-- The candidate cells of `findSafeViewsCell` (part_006 lines 274-279),
in priority order: the mapped target, right of the link, below the link. -/
def candidates (l : PLink) : List (Nat × Nat) :=
  [(l.viewsRow, l.viewsCol), (l.row, l.col + 1), (l.row + 1, l.col)]

/-- Acceptability of a cell value for the client writer (part_006 lines
287-301): not an Instagram URL, and empty or numeric-looking. -/
def candOkV (v : JSVal) : Bool :=
  let value := getCellValue v
  if isInstagramUrl value then false
  else
    let isEmpty := jsIsEmptyStr value
    let isNumeric := !isEmpty && !jsNumberIsNaN value
    isEmpty || isNumeric

def candOk (ws : Ws) (p : Nat × Nat) : Bool := candOkV (ws p)

/-- The candidate walk of `findSafeViewsCell` (part_006 lines 281-304):
never the link cell itself, then the first acceptable candidate. -/
def findGo (ws : Ws) (l : PLink) : List (Nat × Nat) → Option (Nat × Nat)
  | [] => none
  | c :: cs =>
    if c = (l.row, l.col) then findGo ws l cs
    else if candOk ws c then some c
    else findGo ws l cs

/-- `findSafeViewsCell` (part_006 lines 270-305). -/
def findSafeCell (ws : Ws) (l : PLink) : Option (Nat × Nat) :=
  findGo ws l (candidates l)

/-- One iteration of the writer loop (part_006 lines 322-348): look up
the views by URL, find a safe cell, re-check that it is not an Instagram
URL (the double-check of lines 338-343), then store the converted value. -/
def stepW (vm : List (String × MVal)) (ws : Ws) (l : PLink) : Ws :=
  match lookupA vm l.url with
  | none => ws
  | some views =>
    match findSafeCell ws l with
    | none => ws
    | some c =>
      if isInstagramUrl (getCellValue (ws c)) then ws
      else store ws c (writeVal views)

/-- `updateExcelWithViews` (part_006 lines 307-357), restricted to its
worksheet mutation (serialization preserves cells). -/
def updateExcelWithViews (vm : List (String × MVal)) (links : List PLink)
    (ws : Ws) : Ws :=
  links.foldl (stepW vm) ws

/-- The (cell, value) pair `stepW` would store, if any. -/
def stepWrite (vm : List (String × MVal)) (ws : Ws) (l : PLink) :
    Option ((Nat × Nat) × JSVal) :=
  match lookupA vm l.url with
  | none => none
  | some views =>
    match findSafeCell ws l with
    | none => none
    | some c =>
      if isInstagramUrl (getCellValue (ws c)) then none
      else some (c, writeVal views)

/-- The ordered list of stores one writer run performs. -/
def writesGo (vm : List (String × MVal)) : List PLink → Ws →
    List ((Nat × Nat) × JSVal)
  | [], _ => []
  | l :: ls, ws =>
    match stepWrite vm ws l with
    | none => writesGo vm ls ws
    | some w => w :: writesGo vm ls (store ws w.1 w.2)

def writesOf (vm : List (String × MVal)) (links : List PLink) (ws : Ws) :
    List ((Nat × Nat) × JSVal) :=
  writesGo vm links ws

def foldStores (ws : Ws) (wr : List ((Nat × Nat) × JSVal)) : Ws :=
  wr.foldl (fun s w => store s w.1 w.2) ws

/-! ## Synthetic views generator -/

/-- `generateDemoViews` (index.ts lines 288-307, identical in
excelProcessor.ts and part_006), with the two `Math.random()` draws as
explicit rational arguments and the accumulated bucket weights
`0.4, 0.75, 0.95, 1.0` as exact rationals. -/
def generateDemoViews (r1 r2 : ℚ) : Int :=
  if r1 ≤ 2 / 5 then ⌊r2 * 9000 + 1000⌋
  else if r1 ≤ 3 / 4 then ⌊r2 * 90000 + 10000⌋
  else if r1 ≤ 19 / 20 then ⌊r2 * 900000 + 100000⌋
  else if r1 ≤ 1 then ⌊r2 * 9000000 + 1000000⌋
  else ⌊r2 * 50000 + 5000⌋

/-! ## Concrete documents and jobs used to evaluate the pipeline -/

/-- Three full links at (1,1), (1,2), (2,1); everything else empty. -/
def gval1 : Nat → Nat → JSVal := fun r c =>
  if r = 1 && c = 1 then .str "https://www.instagram.com/reel/AAA/"
  else if r = 1 && c = 2 then .str "https://www.instagram.com/reel/BBB/"
  else if r = 2 && c = 1 then .str "https://www.instagram.com/reel/CCC/"
  else .empty

def grid1 : Grid := ⟨2, 2, gval1⟩

/-- A full link at (1,1) and (2,1), and domain-only Instagram text (no
extractable id, hence not part of the link set) at (1,2) and (1,3). -/
def gval2 : Nat → Nat → JSVal := fun r c =>
  if r = 1 && c = 1 then .str "https://www.instagram.com/reel/AAA/"
  else if r = 1 && c = 2 then .str "instagram.com"
  else if r = 1 && c = 3 then .str "instagram.com"
  else if r = 2 && c = 1 then .str "https://www.instagram.com/reel/BBB/"
  else .empty

def grid2 : Grid := ⟨2, 3, gval2⟩

/-- Two links stacked in one column: the distinct-column set is a
singleton, so its gap list is empty. -/
def gvalC2a : Nat → Nat → JSVal := fun r c =>
  if r = 1 && c = 1 then .str "https://www.instagram.com/reel/AAA/"
  else if r = 2 && c = 1 then .str "https://www.instagram.com/reel/BBB/"
  else .empty

def gridC2a : Grid := ⟨2, 1, gvalC2a⟩

/-- Two links in one row at columns 1 and 3 (the Link|Views|Link shape). -/
def gvalC2b : Nat → Nat → JSVal := fun r c =>
  if r = 1 && c = 1 then .str "https://www.instagram.com/reel/AAA/"
  else if r = 1 && c = 3 then .str "https://www.instagram.com/reel/BBB/"
  else .empty

def gridC2b : Grid := ⟨1, 3, gvalC2b⟩

def urlA : String := "https://www.instagram.com/reel/AAA/"

def urlB : String := "https://www.instagram.com/reel/BBB/"

def cexLink1 : SLink := ⟨1, 1, urlA, "AAA"⟩

def cexLink2 : SLink := ⟨2, 1, urlB, "BBB"⟩

/-- An Apify status oracle that never reaches a terminal state. -/
def cexRunningOracle : Nat → String := fun _ => "RUNNING"

/-- An Apify fetch whose run never reaches a terminal status: every poll
answers RUNNING, so `fetchWithApify` exhausts its 24 attempts. -/
def cexFetchTimeout : List String → Except String (List (String × MVal)) :=
  fun b => fetchWithApify b (fun _ => "RUNNING") []

/-- A hiker HTTP oracle whose every request fails. -/
def cexHttpDown : String → Option HikerResult := fun _ => none

/-- Writer counterexample sheet: a link at (1,1) whose mapped target
(1,2) holds plain non-numeric text; all other cells empty. -/
def cexWs8 : Ws := fun p =>
  if p = (1, 1) then .str "https://www.instagram.com/reel/AAA/"
  else if p = (1, 2) then .str "hello"
  else .empty

def cexLink8 : PLink := ⟨1, 1, 1, 2, urlA⟩

/-- Writer witness sheet: a link at (1,1) with an empty target (1,2). -/
def cexWs7 : Ws := fun p =>
  if p = (1, 1) then .str "https://www.instagram.com/reel/AAA/"
  else .empty

def cexLink7 : PLink := ⟨1, 1, 1, 2, urlA⟩

def cexCompletedJob : JobRec :=
  ⟨.completed, 5, 5, 0, none, some "now", some "processed", none⟩

/-! ## Theorems -/

/-- C1: the Cell Placement Resolver violates both halves of its safety
guarantee.  On `grid1` (links at (1,1), (1,2), (2,1), horizontal-below
layout) the first and third links both resolve to (3,1), because the
`(row+2, col)` fallback is returned unchecked and targets are never
claimed.  On `grid2` (links at (1,1) and (2,1) in vertical layout, with
domain-only Instagram text at (1,2) and (1,3)) the first link falls back
to `(row+1, col) = (2,1)`, which is exactly the second link's cell. -/
theorem c1_resolver_unsafe_eval :
    ((resolveLinks grid1).map fun l => (l.viewsRow, l.viewsCol)) =
      [(3, 1), (2, 2), (3, 1)] ∧
    ((resolveLinks grid1).map fun l => (l.row, l.col)) =
      [(1, 1), (1, 2), (2, 1)] ∧
    ((resolveLinks grid2).map fun l => (l.viewsRow, l.viewsCol)) =
      [(2, 1), (2, 2)] ∧
    ((resolveLinks grid2).map fun l => (l.row, l.col)) =
      [(1, 1), (2, 1)] := by decide

/-- C2 (counterexample): `gridC2a` has 2 links in a single column, so the
sorted distinct-column list is the singleton `[1]` and "every consecutive
pairwise gap equals 2" holds vacuously, yet the classifier returns
Vertical, not Alternating. -/
theorem c2_counterexample :
    2 ≤ (scanClient gridC2a).length ∧
    gapsTwo (uniqueLinkCols gridC2a) = true ∧
    clientFormat gridC2a = .vertical ∧
    FileFormat.vertical ≠ FileFormat.alternating := by decide

/-- C2 (amended): when there are at least two distinct link columns and
every consecutive gap of the sorted distinct columns is exactly 2, the
classifier returns Alternating; the check precedes and short-circuits the
row-sharing majority vote, so no cell content or row sharing matters. -/
theorem c2_alternating_priority (g : Grid)
    (h2 : 2 ≤ (uniqueLinkCols g).length)
    (hg : gapsTwo (uniqueLinkCols g) = true) :
    clientFormat g = .alternating := by
  unfold clientFormat
  simp [h2, hg]

/-- Witness for `c2_alternating_priority` at `gridC2b` (links at (1,1)
and (1,3), sharing a row). -/
theorem c2_alternating_witness :
    (2 ≤ (uniqueLinkCols gridC2b).length ∧ gapsTwo (uniqueLinkCols gridC2b) = true) ∧
    clientFormat gridC2b = .alternating :=
  ⟨⟨by decide, by decide⟩, c2_alternating_priority gridC2b (by decide) (by decide)⟩

/-- C3 (counterexample): with every poll answering RUNNING,
`fetchWithApify` exhausts its 24 attempts and throws the timeout — but
the per-batch catch absorbs it: the one-link job finishes Completed with
no `errorMessage`, the link degraded to a per-link `'Error'` outcome and
`failedLinks = 1`.  The claim's "job transitions to Failed" is false. -/
theorem c3_counterexample :
    fetchWithApify [urlA] (fun _ => "RUNNING") [] = .error "Actor run timed out" ∧
    (applyEvs initJob (apifyTrace cexFetchTimeout [cexLink1])).status = .completed ∧
    (applyEvs initJob (apifyTrace cexFetchTimeout [cexLink1])).errorMessage = none ∧
    (applyEvs initJob (apifyTrace cexFetchTimeout [cexLink1])).failedLinks = 1 ∧
    lookupA (apifyMapOf cexFetchTimeout [cexLink1]) "AAA" = some (.str "Error") ∧
    JStatus.completed ≠ JStatus.failed :=
  ⟨rfl, by decide⟩

/-- C4 (counterexample): a two-link hiker job is paused at the first
checkpoint boundary (after the 4th event, while the record is
Processing); the orchestrator nevertheless issues another fetch and its
final update overwrites Paused with Completed. -/
theorem c4_counterexample :
    (((hikerTrace cexHttpDown [cexLink1, cexLink2]).drop 4).filter isFetchEv).length = 1 ∧
    (applyEvs initJob ((hikerTrace cexHttpDown [cexLink1, cexLink2]).take 4)).status = .processing ∧
    (applyEvs
        (updPause "t" (applyEvs initJob ((hikerTrace cexHttpDown [cexLink1, cexLink2]).take 4)))
        ((hikerTrace cexHttpDown [cexLink1, cexLink2]).drop 4)).status = .completed ∧
    JStatus.completed ≠ JStatus.paused := by decide

/-- C5 (amended): the submit-time status update is unconditional — it is
keyed only by the job id, so every invocation moves the job to
Processing regardless of its current status. -/
theorem c5_unconditional_claim (j : JobRec) :
    (updStatusProcessing j).status = .processing := rfl

/-- C5 (counterexample): invoking the entrypoint on a Completed job also
moves it into Processing, refuting the claimed conditional
(Pending-only) transition. -/
theorem c5_counterexample :
    cexCompletedJob.status ≠ .pending ∧
    (updStatusProcessing cexCompletedJob).status = .processing := by decide

/-- C8 (counterexample): on `cexWs8` the mapped target (1,2) holds the
non-numeric text `"hello"`, so the writer's safe-cell walk skips it and
writes the value at (2,1) — a cell outside the resolved target set
`[(1,2)]` is changed on the very first run. -/
theorem c8_counterexample :
    updateExcelWithViews [(urlA, MVal.num 5)] [cexLink8] cexWs8 (2, 1) = JSVal.num 5 ∧
    cexWs8 (2, 1) = JSVal.empty ∧
    (cexLink8.viewsRow, cexLink8.viewsCol) = (1, 2) ∧
    ((2, 1) : Nat × Nat) ≠ (1, 2) := by decide

/-- C9: for any two draws in [0,1) the synthetic generator returns an
integer in [1000, 10_000_000): each weighted bucket floors
`r₂·(hi−lo)+lo` with `1000 ≤ lo < hi ≤ 10_000_000`, and the dead
fallback branch is unreachable for draws below 1. -/
theorem c9_demo_views_range (r1 r2 : ℚ) (_h1 : 0 ≤ r1) (h2 : r1 < 1)
    (h3 : 0 ≤ r2) (h4 : r2 < 1) :
    1000 ≤ generateDemoViews r1 r2 ∧ generateDemoViews r1 r2 < 10000000 := by
  unfold generateDemoViews
  split_ifs with ha hb hc hd
  · constructor
    · refine Int.le_floor.mpr ?_
      push_cast
      nlinarith
    · refine Int.floor_lt.mpr ?_
      push_cast
      nlinarith
  · constructor
    · refine Int.le_floor.mpr ?_
      push_cast
      nlinarith
    · refine Int.floor_lt.mpr ?_
      push_cast
      nlinarith
  · constructor
    · refine Int.le_floor.mpr ?_
      push_cast
      nlinarith
    · refine Int.floor_lt.mpr ?_
      push_cast
      nlinarith
  · constructor
    · refine Int.le_floor.mpr ?_
      push_cast
      nlinarith
    · refine Int.floor_lt.mpr ?_
      push_cast
      nlinarith
  · exact absurd (le_of_lt h2) hd

/-- Witness for `c9_demo_views_range` at draws (0, 0). -/
theorem c9_demo_views_range_witness :
    ((0 : ℚ) ≤ 0 ∧ (0 : ℚ) < 1) ∧
    1000 ≤ generateDemoViews 0 0 ∧ generateDemoViews 0 0 < 10000000 :=
  ⟨⟨le_refl 0, by norm_num⟩,
   c9_demo_views_range 0 0 (le_refl 0) (by norm_num) (le_refl 0) (by norm_num)⟩

/-! ### Trace lemmas for the orchestrator -/

theorem applyEvs_concat (j : JobRec) (evs : List Ev) (e : Ev) :
    applyEvs j (evs ++ [e]) = applyEv (applyEvs j evs) e := by
  simp [applyEvs, List.foldl_append]

/-- A field untouched by every event of a list is untouched by the fold. -/
theorem proj_applyEvs {α : Type} (proj : JobRec → α) (evs : List Ev)
    (h : ∀ e ∈ evs, ∀ r, proj (applyEv r e) = proj r) :
    ∀ j, proj (applyEvs j evs) = proj j := by
  induction evs with
  | nil => intro j; rfl
  | cons e rest ih =>
    intro j
    have : applyEvs j (e :: rest) = applyEvs (applyEv j e) rest := rfl
    rw [this, ih fun x hx => h x (List.mem_cons_of_mem e hx),
      h e (List.mem_cons_self e rest)]

/-- The hiker loop fetches every link's URL, in order, unconditionally. -/
theorem hikerGo_fetchUrls (http : String → Option HikerResult) :
    ∀ (links : List SLink) (i f : Nat),
      fetchUrls (hikerGo http links i f).1 = links.map (·.url) := by
  intro links
  induction links with
  | nil => intro i f; rfl
  | cons l rest ih =>
    intro i f
    simp only [hikerGo, fetchUrls, List.filterMap_cons]
    simpa [fetchUrls] using ih (i + 1) _

/-- Every event the hiker loop emits is a fetch or a
processed/failed checkpoint. -/
theorem hikerGo_events_shape (http : String → Option HikerResult) :
    ∀ (links : List SLink) (i f : Nat), ∀ e ∈ (hikerGo http links i f).1,
      (∃ u, e = .fetch u) ∨ ∃ p q, e = .upd (updProcessedFailed p q) := by
  intro links
  induction links with
  | nil => intro i f e he; exact absurd he (List.not_mem_nil e)
  | cons l rest ih =>
    intro i f e he
    simp only [hikerGo, List.mem_cons] at he
    rcases he with h1 | h1 | h1
    · exact Or.inl ⟨l.url, h1⟩
    · exact Or.inr ⟨_, _, h1⟩
    · exact ih (i + 1) _ e h1

theorem hikerTrace_eq (http : String → Option HikerResult) (links : List SLink) :
    hikerTrace http links =
      (.upd updStatusProcessing :: .upd (updTotal links.length) ::
        (hikerGo http links 0 0).1)
      ++ [.upd (updCompleted links.length (hikerGo http links 0 0).2)] := by
  simp [hikerTrace]

/-- C4 (amended): `usePauseJob` persists Paused/`pausedAt`, but the
orchestrator never re-reads the record after startup: its event trace is
a function of the links and provider alone, it fetches every link's URL
regardless, and if the pause lands anywhere before the end of the
invocation the final update overwrites Paused with Completed while
leaving the persisted `pausedAt` in place. -/
theorem c4_pause_never_observed (http : String → Option HikerResult)
    (links : List SLink) (t : String) (j : JobRec) (k : Nat)
    (hk : k < (hikerTrace http links).length) :
    fetchUrls (hikerTrace http links) = links.map (·.url) ∧
    (applyEvs (updPause t (applyEvs j ((hikerTrace http links).take k)))
        ((hikerTrace http links).drop k)).status = .completed ∧
    (applyEvs (updPause t (applyEvs j ((hikerTrace http links).take k)))
        ((hikerTrace http links).drop k)).pausedAt = some t := by
  have htr := hikerTrace_eq http links
  set front : List Ev :=
    .upd updStatusProcessing :: .upd (updTotal links.length) ::
      (hikerGo http links 0 0).1 with hfront
  set lastE : Ev :=
    .upd (updCompleted links.length (hikerGo http links 0 0).2) with hlast
  have hklen : k ≤ front.length := by
    have : (hikerTrace http links).length = front.length + 1 := by
      rw [htr]; simp
    omega
  have hdrop : (hikerTrace http links).drop k = front.drop k ++ [lastE] := by
    rw [htr, List.drop_append_eq_append_drop]
    have : k - front.length = 0 := by omega
    rw [this]
    rfl
  refine ⟨?_, ?_, ?_⟩
  · rw [htr]
    simp only [fetchUrls, hfront, List.filterMap_append, List.filterMap_cons]
    have := hikerGo_fetchUrls http links 0 0
    simp only [fetchUrls] at this
    simp [this]
  · rw [hdrop, applyEvs_concat]
    rfl
  · rw [hdrop, applyEvs_concat]
    have hnp : ∀ e ∈ front.drop k, ∀ r : JobRec,
        (applyEv r e).pausedAt = r.pausedAt := by
      intro e he r
      have hmem : e ∈ front := List.drop_subset k front he
      rw [hfront] at hmem
      rcases hmem with _ | ⟨_, hmem2⟩
      · rfl
      · rcases hmem2 with _ | ⟨_, hmem3⟩
        · rfl
        · rcases hikerGo_events_shape http links 0 0 e hmem3 with ⟨u, hu⟩ | ⟨p, q, hpq⟩
          · rw [hu]; rfl
          · rw [hpq]; rfl
    have hfold := proj_applyEvs (fun r => r.pausedAt) (front.drop k) hnp
      (updPause t (applyEvs j ((hikerTrace http links).take k)))
    simp only at hfold
    have : (applyEv (applyEvs
        (updPause t (applyEvs j ((hikerTrace http links).take k)))
        (front.drop k)) lastE).pausedAt =
        (applyEvs (updPause t (applyEvs j ((hikerTrace http links).take k)))
          (front.drop k)).pausedAt := by
      rw [hlast]; rfl
    rw [this, hfold]
    rfl

/-- Witness for `c4_pause_never_observed`: the two-link hiker job paused
after the 4th event. -/
theorem c4_pause_never_observed_witness :
    4 < (hikerTrace cexHttpDown [cexLink1, cexLink2]).length ∧
    fetchUrls (hikerTrace cexHttpDown [cexLink1, cexLink2]) =
      [cexLink1, cexLink2].map (·.url) ∧
    (applyEvs (updPause "t" (applyEvs initJob
        ((hikerTrace cexHttpDown [cexLink1, cexLink2]).take 4)))
      ((hikerTrace cexHttpDown [cexLink1, cexLink2]).drop 4)).status = .completed :=
  ⟨by decide,
   (c4_pause_never_observed cexHttpDown [cexLink1, cexLink2] "t" initJob 4 (by decide)).1,
   (c4_pause_never_observed cexHttpDown [cexLink1, cexLink2] "t" initJob 4 (by decide)).2.1⟩

/-! ### Apify timeout lemmas -/

theorem pollGo_nonterminal (oracle : Nat → String)
    (hO : ∀ k, oracle k ≠ "SUCCEEDED" ∧ oracle k ≠ "FAILED" ∧ oracle k ≠ "ABORTED") :
    ∀ (fuel att : Nat), pollGo oracle fuel att = .ok (att + fuel) := by
  intro fuel
  induction fuel with
  | zero => intro att; rfl
  | succ n ih =>
    intro att
    have h := hO att
    have harith : att + 1 + n = att + (n + 1) := by omega
    simp only [pollGo, h.1, h.2.1, h.2.2, if_false, ih (att + 1), harith]
    simp

/-- When no poll ever reaches a terminal status, the 24-attempt bound is
exhausted and the provider fetch throws the timeout. -/
theorem pollApify_timeout (oracle : Nat → String)
    (hO : ∀ k, oracle k ≠ "SUCCEEDED" ∧ oracle k ≠ "FAILED" ∧ oracle k ≠ "ABORTED") :
    pollApify oracle = .error "Actor run timed out" := by
  unfold pollApify
  rw [pollGo_nonterminal oracle hO maxAttempts 0]
  rfl

theorem lookupA_insertRep (m : List (String × MVal)) (k : String) (v : MVal)
    (k' : String) :
    lookupA (insertRep m k v) k' = if k' = k then some v else lookupA m k' := by
  induction m with
  | nil =>
    by_cases h : k' = k
    · subst h; simp [insertRep, lookupA]
    · have h2 : ¬(k = k') := fun hh => h hh.symm
      simp [insertRep, lookupA, h, h2]
  | cons kv rest ih =>
    obtain ⟨k0, v0⟩ := kv
    by_cases h0 : k0 = k
    · subst h0
      by_cases h : k' = k0
      · subst h
        simp [insertRep, lookupA]
      · have h2 : ¬(k0 = k') := fun hh => h hh.symm
        simp [insertRep, lookupA, h, h2]
    · by_cases h1 : k0 = k'
      · subst h1
        simp [insertRep, lookupA, h0]
      · simp [insertRep, lookupA, h0, h1, ih]

/-- After `markErrors`, an id stays `'Error'` if it already was, and
every extractable id of the processed URL list maps to `'Error'`. -/
theorem markErrors_lookup :
    ∀ (urls : List String) (vm : List (String × MVal)) (id : String),
      (lookupA vm id = some (.str "Error") ∨
        ∃ u ∈ urls, extractInstagramId u = some id) →
      lookupA (markErrors vm urls) id = some (.str "Error") := by
  intro urls
  induction urls with
  | nil =>
    intro vm id h
    rcases h with h | ⟨u, hu, _⟩
    · exact h
    · exact absurd hu (List.not_mem_nil u)
  | cons u rest ih =>
    intro vm id h
    have hstep : markErrors vm (u :: rest) =
        markErrors (match extractInstagramId u with
          | some igId => insertRep vm igId (.str "Error")
          | none => vm) rest := rfl
    rw [hstep]
    rcases h with h | ⟨u', hu', hex⟩
    · apply ih
      left
      cases hx : extractInstagramId u with
      | none => simpa [hx] using h
      | some igId =>
        simp only [hx]
        rw [lookupA_insertRep]
        by_cases hid : id = igId <;> simp [hid, h]
    · rcases List.mem_cons.mp hu' with rfl | hmem
      · apply ih
        left
        rw [hex]
        rw [lookupA_insertRep]
        simp
      · exact ih _ id (Or.inr ⟨u', hmem, hex⟩)

/-- With an always-failing fetch, the batch loop marks every extractable
id `'Error'`, and `'Error'` entries persist across later batches. -/
theorem apifyGoF_err_lookup (e : String) (n : Nat) :
    ∀ (fuel : Nat) (urls : List String) (i : Nat) (vm : List (String × MVal))
      (f : Nat), urls.length ≤ fuel →
      (∀ id, lookupA vm id = some (.str "Error") →
        lookupA (apifyGoF (fun _ => .error e) n fuel urls i vm f).2.1 id =
          some (.str "Error")) ∧
      (∀ u ∈ urls, ∀ id, extractInstagramId u = some id →
        lookupA (apifyGoF (fun _ => .error e) n fuel urls i vm f).2.1 id =
          some (.str "Error")) := by
  intro fuel
  induction fuel with
  | zero =>
    intro urls i vm f hlen
    have : urls = [] := List.length_eq_zero.mp (Nat.le_zero.mp hlen)
    subst this
    exact ⟨fun id h => h, fun u hu => absurd hu (List.not_mem_nil u)⟩
  | succ m ih =>
    intro urls i vm f hlen
    cases urls with
    | nil => exact ⟨fun id h => h, fun u hu => absurd hu (List.not_mem_nil u)⟩
    | cons u us =>
      have hrest : ((u :: us).drop 10).length ≤ m := by
        have h1 : ((u :: us).drop 10).length = (u :: us).length - 10 :=
          List.length_drop _ _
        have h2 : (u :: us).length = us.length + 1 := rfl
        omega
      have hgo : (apifyGoF (fun _ => .error e) n (m + 1) (u :: us) i vm f).2.1 =
          (apifyGoF (fun _ => .error e) n m ((u :: us).drop 10) (i + 10)
            (markErrors vm ((u :: us).take 10)) (f + countIds ((u :: us).take 10))).2.1 := rfl
      constructor
      · intro id h
        rw [hgo]
        exact (ih _ _ _ _ hrest).1 id
          (markErrors_lookup ((u :: us).take 10) vm id (Or.inl h))
      · intro u' hu' id hex
        rw [hgo]
        have hsplit : u' ∈ (u :: us).take 10 ∨ u' ∈ (u :: us).drop 10 := by
          rw [← List.mem_append, List.take_append_drop]
          exact hu'
        rcases hsplit with hm | hm
        · exact (ih _ _ _ _ hrest).1 id
            (markErrors_lookup ((u :: us).take 10) vm id (Or.inr ⟨u', hm, hex⟩))
        · exact (ih _ _ _ _ hrest).2 u' hm id hex

/-- Every event the Apify batch loop emits is a fetch or a
processed/failed checkpoint. -/
theorem apifyGoF_events_shape
    (fetch : List String → Except String (List (String × MVal))) (n : Nat) :
    ∀ (fuel : Nat) (urls : List String) (i : Nat) (vm : List (String × MVal))
      (f : Nat), ∀ e ∈ (apifyGoF fetch n fuel urls i vm f).1,
      (∃ u, e = .fetch u) ∨ ∃ p q, e = .upd (updProcessedFailed p q) := by
  intro fuel
  induction fuel with
  | zero =>
    intro urls i vm f e he
    cases urls <;> exact absurd he (List.not_mem_nil e)
  | succ m ih =>
    intro urls i vm f e he
    cases urls with
    | nil => exact absurd he (List.not_mem_nil e)
    | cons u us =>
      simp only [apifyGoF, List.mem_cons] at he
      rcases he with h1 | h1 | h1
      · exact Or.inl ⟨"batch", h1⟩
      · exact Or.inr ⟨_, _, h1⟩
      · exact ih _ _ _ _ e h1

theorem apifyTrace_eq
    (fetch : List String → Except String (List (String × MVal)))
    (links : List SLink) :
    apifyTrace fetch links =
      (.upd updStatusProcessing :: .upd (updTotal links.length) ::
        (apifyRun fetch links).1)
      ++ [.upd (updCompleted links.length (apifyRun fetch links).2.2)] := by
  simp [apifyTrace]

/-- C3 (amended): exhausting the 24 fixed-interval polls makes
`fetchWithApify` throw `'Actor run timed out'`, but the per-batch
try/catch absorbs every provider throw: each link of the failed batch is
downgraded to a per-link `'Error'` outcome, `failedLinks` counts them,
and the job still runs to Completed with no `errorMessage` (only a
storage failure after the loop could still fail the job, which the model
treats as succeeding). -/
theorem c3_timeout_absorbed (oracle : Nat → String)
    (hO : ∀ k, oracle k ≠ "SUCCEEDED" ∧ oracle k ≠ "FAILED" ∧ oracle k ≠ "ABORTED")
    (e : String) (links : List SLink)
    (hids : ∀ l ∈ links, extractInstagramId l.url = some l.igId) :
    pollApify oracle = .error "Actor run timed out" ∧
    (∀ urls results, fetchWithApify urls oracle results =
      .error "Actor run timed out") ∧
    (applyEvs initJob (apifyTrace (fun _ => .error e) links)).status = .completed ∧
    (applyEvs initJob (apifyTrace (fun _ => .error e) links)).errorMessage = none ∧
    (∀ l ∈ links,
      lookupA (apifyMapOf (fun _ => .error e) links) l.igId = some (.str "Error")) := by
  have hpoll := pollApify_timeout oracle hO
  refine ⟨hpoll, ?_, ?_, ?_, ?_⟩
  · intro urls results
    unfold fetchWithApify
    rw [hpoll]
  · rw [apifyTrace_eq, applyEvs_concat]
    rfl
  · rw [apifyTrace_eq, applyEvs_concat]
    have hlast : ∀ r : JobRec,
        (applyEv r (.upd (updCompleted links.length
          (apifyRun (fun _ => .error e) links).2.2))).errorMessage = r.errorMessage :=
      fun r => rfl
    rw [hlast]
    have hbody : ∀ ev ∈ (.upd updStatusProcessing ::
        .upd (updTotal links.length) :: (apifyRun (fun _ => .error e) links).1 : List Ev),
        ∀ r : JobRec, (applyEv r ev).errorMessage = r.errorMessage := by
      intro ev hev r
      rcases hev with _ | ⟨_, hev2⟩
      · rfl
      · rcases hev2 with _ | ⟨_, hev3⟩
        · rfl
        · rcases apifyGoF_events_shape _ _ _ _ _ _ _ ev hev3 with ⟨u, hu⟩ | ⟨p, q, hpq⟩
          · rw [hu]; rfl
          · rw [hpq]; rfl
    rw [proj_applyEvs (fun r => r.errorMessage) _ hbody initJob]
    rfl
  · intro l hl
    have := (apifyGoF_err_lookup e links.length (links.map (·.url)).length
      (links.map (·.url)) 0 [] 0 (le_refl _)).2
    exact this l.url (List.mem_map_of_mem (·.url) hl) l.igId (hids l hl)

/-- Witness for `c3_timeout_absorbed` with the always-RUNNING oracle and
the single-link job. -/
theorem c3_timeout_absorbed_witness :
    ((∀ k : Nat, cexRunningOracle k ≠ "SUCCEEDED" ∧
        cexRunningOracle k ≠ "FAILED" ∧ cexRunningOracle k ≠ "ABORTED") ∧
      (∀ l ∈ [cexLink1], extractInstagramId l.url = some l.igId)) ∧
    (applyEvs initJob (apifyTrace (fun _ => .error "Actor run timed out")
      [cexLink1])).status = .completed ∧
    lookupA (apifyMapOf (fun _ => .error "Actor run timed out") [cexLink1]) "AAA" =
      some (.str "Error") :=
  have hO : ∀ k : Nat, cexRunningOracle k ≠ "SUCCEEDED" ∧
      cexRunningOracle k ≠ "FAILED" ∧ cexRunningOracle k ≠ "ABORTED" := fun _ =>
    (by decide : ("RUNNING" : String) ≠ "SUCCEEDED" ∧
      ("RUNNING" : String) ≠ "FAILED" ∧ ("RUNNING" : String) ≠ "ABORTED")
  ⟨⟨hO, by decide⟩,
   (c3_timeout_absorbed cexRunningOracle hO "Actor run timed out" [cexLink1]
      (by decide)).2.2.1,
   (c3_timeout_absorbed cexRunningOracle hO "Actor run timed out" [cexLink1]
      (by decide)).2.2.2.2 cexLink1 (List.mem_singleton.mpr rfl)⟩

/-! ### Checkpoint counter lemmas -/

theorem apifyViews_ne_error (r : ApifyResult) : apifyViews r ≠ .str "Error" := by
  unfold apifyViews
  cases r.videoPlayCount <|> r.playCount <;> simp

theorem countError_insertRep_le (m : List (String × MVal)) (k : String)
    (v : MVal) (hv : v ≠ .str "Error") :
    countError (insertRep m k v) ≤ countError m := by
  induction m with
  | nil => simp [insertRep, countError, List.filter, hv]
  | cons kv rest ih =>
    by_cases h0 : kv.1 = k
    · simp only [insertRep, h0, if_true]
      by_cases he : kv.2 = .str "Error" <;>
        simp [countError, List.filter_cons, he, hv]
    · simp only [insertRep, h0, if_false]
      by_cases he : kv.2 = .str "Error" <;>
        simp [countError, List.filter_cons, he] at ih ⊢ <;> omega

theorem countError_insertRep_err (m : List (String × MVal)) (k : String) :
    countError (insertRep m k (.str "Error")) ≤ countError m + 1 := by
  induction m with
  | nil => simp [insertRep, countError, List.filter]
  | cons kv rest ih =>
    by_cases h0 : kv.1 = k
    · simp only [insertRep, h0, if_true]
      by_cases he : kv.2 = .str "Error" <;>
        simp [countError, List.filter_cons, he]
    · simp only [insertRep, h0, if_false]
      by_cases he : kv.2 = .str "Error" <;>
        simp [countError, List.filter_cons, he] at ih ⊢ <;> omega

theorem countError_fold_results :
    ∀ (results : List ApifyResult) (m : List (String × MVal)),
      countError (results.foldl (fun m r =>
        match r.inputUrl <|> r.url with
        | some u =>
          match extractInstagramId u with
          | some igId => insertRep m igId (apifyViews r)
          | none => m
        | none => m) m) ≤ countError m := by
  intro results
  induction results with
  | nil => intro m; simp
  | cons r rest ih =>
    intro m
    rw [List.foldl_cons]
    refine le_trans (ih _) ?_
    cases h1 : r.inputUrl <|> r.url with
    | none => simp [h1]
    | some u =>
      cases h2 : extractInstagramId u with
      | none => simp [h1, h2]
      | some igId =>
        simp only [h1, h2]
        exact countError_insertRep_le m igId (apifyViews r) (apifyViews_ne_error r)

theorem countError_fold_urls :
    ∀ (urls : List String) (m : List (String × MVal)),
      countError (urls.foldl (fun m u =>
        match extractInstagramId u with
        | some igId =>
          if (lookupA m igId).isSome then m else insertRep m igId (.str "Error")
        | none => m) m) ≤ countError m + urls.length := by
  intro urls
  induction urls with
  | nil => intro m; simp
  | cons u rest ih =>
    intro m
    rw [List.foldl_cons]
    refine le_trans (ih _) ?_
    have hstep : countError (match extractInstagramId u with
        | some igId =>
          if (lookupA m igId).isSome then m else insertRep m igId (.str "Error")
        | none => m) ≤ countError m + 1 := by
      cases h2 : extractInstagramId u with
      | none => simp [h2]
      | some igId =>
        by_cases hp : (lookupA m igId).isSome
        · simp [h2, hp]
        · simpa [h2, hp] using countError_insertRep_err m igId
    simp only [List.length_cons]
    omega

/-- At most one `'Error'` entry can enter the Apify map per requested
URL, so a batch contributes at most its own length to `failedLinks`. -/
theorem countError_buildApifyMap (results : List ApifyResult)
    (urls : List String) :
    countError (buildApifyMap results urls) ≤ urls.length := by
  have h1 : countError (apifyResultsMap results) ≤ 0 :=
    countError_fold_results results []
  have h2 := countError_fold_urls urls (apifyResultsMap results)
  have heq : countError (buildApifyMap results urls) =
      countError (urls.foldl (fun m u =>
        match extractInstagramId u with
        | some igId =>
          if (lookupA m igId).isSome then m else insertRep m igId (.str "Error")
        | none => m) (apifyResultsMap results)) := rfl
  omega

theorem countIds_le (urls : List String) : countIds urls ≤ urls.length :=
  List.length_filter_le _ urls

/-! ### Per-mode record-state invariants -/

/-- All states along the demo checkpoint suffix satisfy the invariants,
given a start state with the right total and zero failures. -/
theorem demo_cps_states (n : Nat) :
    ∀ (cps : List Ev) (j : JobRec),
      (∀ e ∈ cps, ∃ p, p ≤ n ∧ e = .upd (updProcessed p)) →
      j.totalLinks = n → j.failedLinks = 0 → j.processedLinks ≤ n →
      ∀ r ∈ recStates j (cps ++ [.upd (updCompleted n 0)]),
        r.processedLinks ≤ r.totalLinks ∧ r.failedLinks ≤ r.processedLinks := by
  intro cps
  induction cps with
  | nil =>
    intro j _ htot hfail hproc r hr
    simp only [List.nil_append, recStates, List.mem_cons, List.mem_singleton] at hr
    rcases hr with rfl | rfl | hr
    · exact ⟨htot ▸ hproc, hfail ▸ Nat.zero_le _⟩
    · exact ⟨by simp [applyEv, updCompleted, htot], by simp [applyEv, updCompleted]⟩
    · exact absurd hr (List.not_mem_nil r)
  | cons e rest ih =>
    intro j hsh htot hfail hproc r hr
    obtain ⟨p, hp, rfl⟩ := hsh e (List.mem_cons_self e rest)
    simp only [List.cons_append, recStates, List.mem_cons] at hr
    rcases hr with rfl | hr
    · exact ⟨htot ▸ hproc, hfail ▸ Nat.zero_le _⟩
    · exact ih (updProcessed p j)
        (fun e' he' => hsh e' (List.mem_cons_of_mem _ he'))
        (by simp [updProcessed, htot]) (by simp [updProcessed, hfail])
        (by simp [updProcessed, hp]) r hr

/-- All states along the hiker loop satisfy the invariants. -/
theorem hiker_states (http : String → Option HikerResult) (n : Nat) :
    ∀ (links : List SLink) (i f : Nat) (j : JobRec),
      f ≤ i → i ≤ n → f ≤ n → i + links.length = n → j.totalLinks = n →
      j.processedLinks ≤ j.totalLinks → j.failedLinks ≤ j.processedLinks →
      ∀ r ∈ recStates j ((hikerGo http links i f).1 ++
          [.upd (updCompleted n (hikerGo http links i f).2)]),
        r.processedLinks ≤ r.totalLinks ∧ r.failedLinks ≤ r.processedLinks := by
  intro links
  induction links with
  | nil =>
    intro i f j hfi _ hfn _ htot hpt hfp r hr
    simp only [hikerGo, List.nil_append, recStates, List.mem_cons,
      List.mem_singleton] at hr
    rcases hr with rfl | rfl | hr
    · exact ⟨hpt, hfp⟩
    · exact ⟨by simp [applyEv, updCompleted, htot], by simp [applyEv, updCompleted, hfn]⟩
    · exact absurd hr (List.not_mem_nil r)
  | cons l rest ih =>
    intro i f j hfi hin hfn hlen htot hpt hfp r hr
    simp only [hikerGo, List.cons_append, recStates, List.mem_cons] at hr
    have hlen' : (i + 1) + rest.length = n := by
      simp only [List.length_cons] at hlen
      omega
    rcases hr with rfl | rfl | hr
    · exact ⟨hpt, hfp⟩
    · exact ⟨hpt, hfp⟩
    · set f' := if (fetchSingleHikerUrl http l.url).1 ≠ "" &&
        (fetchSingleHikerUrl http l.url).2 = MVal.str "Error" then f + 1 else f with hf'
      have hfle : f' ≤ f + 1 := by
        rw [hf']; split <;> omega
      exact ih (i + 1) f' (updProcessedFailed (i + 1) f' j)
        (by omega) (by omega) (by omega) hlen'
        (by simp [updProcessedFailed, htot])
        (by simp [updProcessedFailed, htot]; omega)
        (by simp [updProcessedFailed]; omega) r hr

/-- All states along the Apify batch loop satisfy the invariants,
provided a successful fetch never reports more `'Error'` entries than
the batch has URLs. -/
theorem apify_states
    (fetch : List String → Except String (List (String × MVal)))
    (hF : ∀ b bm, fetch b = .ok bm → countError bm ≤ b.length) (n : Nat) :
    ∀ (fuel : Nat) (urls : List String) (i : Nat) (vm : List (String × MVal))
      (f : Nat) (j : JobRec),
      urls.length ≤ fuel → f ≤ i → f ≤ n → (urls ≠ [] → i + urls.length = n) →
      j.totalLinks = n →
      j.processedLinks ≤ j.totalLinks → j.failedLinks ≤ j.processedLinks →
      ∀ r ∈ recStates j ((apifyGoF fetch n fuel urls i vm f).1 ++
          [.upd (updCompleted n (apifyGoF fetch n fuel urls i vm f).2.2)]),
        r.processedLinks ≤ r.totalLinks ∧ r.failedLinks ≤ r.processedLinks := by
  intro fuel
  induction fuel with
  | zero =>
    intro urls i vm f j hlen hfi hfn _ htot hpt hfp r hr
    have : urls = [] := List.length_eq_zero.mp (Nat.le_zero.mp hlen)
    subst this
    simp only [apifyGoF, List.nil_append, recStates, List.mem_cons,
      List.mem_singleton] at hr
    rcases hr with rfl | rfl | hr
    · exact ⟨hpt, hfp⟩
    · exact ⟨by simp [applyEv, updCompleted, htot], by simp [applyEv, updCompleted, hfn]⟩
    · exact absurd hr (List.not_mem_nil r)
  | succ m ih =>
    intro urls i vm f j hlen hfi hfn hrel htot hpt hfp r hr
    cases urls with
    | nil =>
      simp only [apifyGoF, List.nil_append, recStates, List.mem_cons,
        List.mem_singleton] at hr
      rcases hr with rfl | rfl | hr
      · exact ⟨hpt, hfp⟩
      · exact ⟨by simp [applyEv, updCompleted, htot], by simp [applyEv, updCompleted, hfn]⟩
      · exact absurd hr (List.not_mem_nil r)
    | cons u us =>
      have hn : i + (u :: us).length = n := hrel (by simp)
      have hulen : (u :: us).length = us.length + 1 := rfl
      have hbatchlen : ((u :: us).take 10).length = min 10 (u :: us).length :=
        List.length_take _ _
      set batch := (u :: us).take 10 with hbatch
      set rest := (u :: us).drop 10 with hrest
      have hrestlen : rest.length = (u :: us).length - 10 := List.length_drop _ _
      set stepv : List (String × MVal) × Nat :=
        match fetch batch with
        | .ok bm => (mergeMap vm bm, f + countError bm)
        | .error _ => (markErrors vm batch, f + countIds batch)
        with hstepv
      have hcnt : stepv.2 ≤ f + batch.length := by
        rw [hstepv]
        cases hfb : fetch batch with
        | ok bm => simpa using Nat.add_le_add_left (hF batch bm hfb) f
        | error e => simpa using Nat.add_le_add_left (countIds_le batch) f
      set p := min (i + 10) n with hp
      have hpn : p ≤ n := Nat.min_le_right _ _
      have hfp' : stepv.2 ≤ p := by
        have h1 : batch.length = min 10 (u :: us).length := hbatchlen
        omega
      have hgo : (apifyGoF fetch n (m + 1) (u :: us) i vm f) =
          (.fetch "batch" :: .upd (updProcessedFailed p stepv.2) ::
            (apifyGoF fetch n m rest (i + 10) stepv.1 stepv.2).1,
           (apifyGoF fetch n m rest (i + 10) stepv.1 stepv.2).2) := rfl
      rw [hgo] at hr
      simp only [List.cons_append, recStates, List.mem_cons] at hr
      rcases hr with rfl | rfl | hr
      · exact ⟨hpt, hfp⟩
      · exact ⟨hpt, hfp⟩
      · exact ih rest (i + 10) stepv.1 stepv.2
          (updProcessedFailed p stepv.2 j)
          (by omega) (by omega) (by omega)
          (fun hne => by
            have : rest.length ≠ 0 := fun h0 =>
              hne (List.length_eq_zero.mp h0)
            omega)
          (by simp [updProcessedFailed, htot])
          (by simp [updProcessedFailed, htot]; omega)
          (by simp [updProcessedFailed]; omega) r hr

/-- C6: every record state produced by an invocation — in synthetic
(demo), per-item (hiker) and bulk (Apify) modes, checkpoints and final
update included — satisfies `processedLinks ≤ totalLinks` and
`failedLinks ≤ processedLinks`, with `totalLinks` the plan's link count. -/
theorem c6_checkpoint_invariants (n : Nat)
    (http : String → Option HikerResult) (links : List SLink)
    (pollO : List String → Nat → String)
    (resO : List String → List ApifyResult) (r : JobRec)
    (hr : r ∈ recStates initJob (demoEvents n) ∨
          r ∈ recStates initJob (hikerTrace http links) ∨
          r ∈ recStates initJob (apifyTrace
            (fun b => fetchWithApify b (pollO b) (resO b)) links)) :
    r.processedLinks ≤ r.totalLinks ∧ r.failedLinks ≤ r.processedLinks := by
  rcases hr with hr | hr | hr
  · simp only [demoEvents, recStates, List.mem_cons] at hr
    rcases hr with rfl | rfl | hr
    · exact ⟨Nat.le_refl 0, Nat.le_refl 0⟩
    · exact ⟨Nat.le_refl 0, Nat.le_refl 0⟩
    · refine demo_cps_states n _ _ ?_ rfl rfl (Nat.zero_le n) r hr
      intro e he
      obtain ⟨i, hi, hsome⟩ := List.mem_filterMap.mp he
      by_cases hcond : (i + 1) % 10 = 0 || i = n - 1
      · refine ⟨i + 1, ?_, ?_⟩
        · have := List.mem_range.mp hi
          omega
        · simp only [hcond, if_true] at hsome
          exact (Option.some.injEq _ _).mp hsome |>.symm
      · simp only [hcond, if_false] at hsome
        exact absurd hsome (Option.noConfusion)
  · rw [hikerTrace_eq] at hr
    simp only [List.cons_append, recStates, List.mem_cons] at hr
    rcases hr with rfl | rfl | hr
    · exact ⟨Nat.le_refl 0, Nat.le_refl 0⟩
    · exact ⟨Nat.le_refl 0, Nat.le_refl 0⟩
    · exact hiker_states http links.length links 0 0 _
        (Nat.le_refl 0) (Nat.zero_le _) (Nat.zero_le _) (by simp)
        rfl (Nat.zero_le _) (Nat.le_refl 0) r hr
  · rw [apifyTrace_eq] at hr
    simp only [List.cons_append, recStates, List.mem_cons] at hr
    rcases hr with rfl | rfl | hr
    · exact ⟨Nat.le_refl 0, Nat.le_refl 0⟩
    · exact ⟨Nat.le_refl 0, Nat.le_refl 0⟩
    · refine apify_states _ ?_ links.length (links.map (·.url)).length
        (links.map (·.url)) 0 [] 0 _ (Nat.le_refl _) (Nat.le_refl 0)
        (Nat.zero_le _) (fun _ => by simp) rfl (Nat.zero_le _)
        (Nat.le_refl 0) r hr
      intro b bm hfb
      unfold fetchWithApify at hfb
      cases hpa : pollApify (pollO b) with
      | error e => rw [hpa] at hfb; exact absurd hfb (by simp)
      | ok att =>
        rw [hpa] at hfb
        have : buildApifyMap (resO b) b = bm := by
          simpa using hfb
        rw [← this]
        exact countError_buildApifyMap (resO b) b

/-- Witness for `c6_checkpoint_invariants`: the mid-run state of the
two-link hiker job after its first checkpoint. -/
theorem c6_checkpoint_invariants_witness :
    (⟨.processing, 2, 1, 1, none, none, none, none⟩ : JobRec) ∈
      recStates initJob (hikerTrace cexHttpDown [cexLink1, cexLink2]) ∧
    (1 : Nat) ≤ 2 ∧ (1 : Nat) ≤ 1 :=
  ⟨by decide,
   c6_checkpoint_invariants 0 cexHttpDown [cexLink1, cexLink2]
     (fun _ _ => "RUNNING") (fun _ => [])
     ⟨.processing, 2, 1, 1, none, none, none, none⟩
     (Or.inr (Or.inl (by decide)))⟩

/-! ### Character-level facts about decimal strings -/

theorem digitChar_props (n : Nat) :
    isDig (digitChar n) = true ∧ isWsChar (digitChar n) = false ∧
    lcChar (digitChar n) ≠ 'i' ∧ digitChar n ≠ '+' ∧ digitChar n ≠ '-' := by
  unfold digitChar
  split <;> exact (by decide)

theorem natDigsF_shape :
    ∀ (fuel n : Nat), natDigsF fuel n ≠ [] ∧
      ∀ c ∈ natDigsF fuel n, ∃ m, c = digitChar m := by
  intro fuel
  induction fuel with
  | zero =>
    intro n
    exact ⟨by simp [natDigsF], by
      intro c hc
      simp only [natDigsF, List.mem_singleton] at hc
      exact ⟨n, hc⟩⟩
  | succ k ih =>
    intro n
    by_cases h : n < 10
    · refine ⟨by simp [natDigsF, h], ?_⟩
      intro c hc
      simp only [natDigsF, h, if_true, List.mem_singleton] at hc
      exact ⟨n, hc⟩
    · refine ⟨by simp [natDigsF, h], ?_⟩
      intro c hc
      simp only [natDigsF, h, if_false, List.mem_append, List.mem_singleton] at hc
      rcases hc with hc | hc
      · exact (ih (n / 10)).2 c hc
      · exact ⟨n % 10, hc⟩

theorem stringData_mk (l : List Char) : (⟨l⟩ : String).data = l := rfl

theorem intToDecString_data_neg (k : Int) (h : k < 0) :
    (intToDecString k).data = '-' :: natDigsF k.natAbs k.natAbs := by
  unfold intToDecString natDigs
  rw [if_pos h]

theorem intToDecString_data_nonneg (k : Int) (h : ¬k < 0) :
    (intToDecString k).data = natDigsF k.toNat k.toNat := by
  unfold intToDecString natDigs
  rw [if_neg h]

/-- Every character of `String(n)` for an integer is a minus sign or a
decimal digit. -/
theorem intToDecString_chars (k : Int) (c : Char) :
    c ∈ (intToDecString k).data → c = '-' ∨ ∃ m, c = digitChar m := by
  intro hc
  by_cases hneg : k < 0
  · rw [intToDecString_data_neg k hneg] at hc
    rcases List.mem_cons.mp hc with rfl | hc2
    · exact Or.inl rfl
    · exact Or.inr ((natDigsF_shape _ _).2 c hc2)
  · rw [intToDecString_data_nonneg k hneg] at hc
    exact Or.inr ((natDigsF_shape _ _).2 c hc)

theorem intToDecString_ne_empty (k : Int) : (intToDecString k).data ≠ [] := by
  by_cases hneg : k < 0
  · rw [intToDecString_data_neg k hneg]
    simp
  · rw [intToDecString_data_nonneg k hneg]
    exact (natDigsF_shape _ _).1

/-! ### The URL recognizer requires a lowercase `i` -/

theorem domTail_head (l : List Char) (h : (domTail l).isSome = true) :
    ∃ c ∈ l, lcChar c = 'i' := by
  cases l with
  | nil =>
    exfalso
    have h1 : domTail ([] : List Char) = none := rfl
    rw [h1] at h
    exact absurd h (by simp)
  | cons c cs =>
    refine ⟨c, List.mem_cons_self c cs, ?_⟩
    by_contra hne
    have h1 : ciConsume "instagram.com".data (c :: cs) = none := by
      show (if lcChar c = 'i' then ciConsume "nstagram.com".data cs else none) = none
      simp [hne]
    have h2 : ciConsume "instagr.am".data (c :: cs) = none := by
      show (if lcChar c = 'i' then ciConsume "nstagr.am".data cs else none) = none
      simp [hne]
    have : domTail (c :: cs) = none := by
      unfold domTail
      rw [h1, h2]
    rw [this] at h
    exact absurd h (by simp)

theorem domFound_has_i :
    ∀ (l : List Char), domFound l = true → ∃ c ∈ l, lcChar c = 'i' := by
  intro l
  induction l with
  | nil => intro h; exact absurd h (by simp [domFound])
  | cons c cs ih =>
    intro h
    have h2 : (domTail (c :: cs)).isSome = true ∨ domFound cs = true := by
      have hd : domFound (c :: cs) =
          ((domTail (c :: cs)).isSome || domFound cs) := rfl
      rw [hd] at h
      exact Bool.or_eq_true_iff.mp h
    rcases h2 with h2 | h2
    · exact domTail_head _ h2
    · obtain ⟨c', hc', hi⟩ := ih h2
      exact ⟨c', List.mem_cons_of_mem c hc', hi⟩

theorem firstMatch_has_i :
    ∀ (l : List Char), (firstMatch l).isSome = true → ∃ c ∈ l, lcChar c = 'i' := by
  intro l
  induction l with
  | nil => intro h; exact absurd h (by simp [firstMatch])
  | cons c cs ih =>
    intro h
    cases hm : urlMatchAt (c :: cs) with
    | some r =>
      have hd : (domTail (c :: cs)).isSome = true := by
        unfold urlMatchAt at hm
        cases hdt : domTail (c :: cs) with
        | none => rw [hdt] at hm; exact absurd hm (by simp)
        | some _ => simp [hdt]
      exact domTail_head _ hd
    | none =>
      have hrec : firstMatch (c :: cs) = firstMatch cs := by
        show (match urlMatchAt (c :: cs) with
          | some idRun => some idRun
          | none => firstMatch cs) = firstMatch cs
        rw [hm]
      rw [hrec] at h
      obtain ⟨c', hc', hi⟩ := ih h
      exact ⟨c', List.mem_cons_of_mem c hc', hi⟩

theorem mem_jsTrimCore (l : List Char) (c : Char) :
    c ∈ jsTrimCore l → c ∈ l := by
  intro hc
  unfold jsTrimCore jsTrimL at hc
  rw [List.mem_reverse] at hc
  have h1 := (List.dropWhile_sublist (l := ((l.dropWhile isWsChar).reverse))
    (p := isWsChar)).subset hc
  rw [List.mem_reverse] at h1
  exact (List.dropWhile_sublist (l := l) (p := isWsChar)).subset h1

theorem mem_stripTrail (l1 : List Char) (c : Char) :
    c ∈ stripTrail l1 → c ∈ l1 := by
  intro hm
  unfold stripTrail at hm
  cases hg : l1.getLast? with
  | none => rw [hg] at hm; exact hm
  | some c0 =>
    rw [hg] at hm
    by_cases hq : isQuote c0
    · simp only [hq, if_true] at hm
      exact (List.dropLast_sublist l1).subset hm
    · simpa [hq] using hm

theorem mem_stripQuotesL (l : List Char) (c : Char) :
    c ∈ stripQuotesL l → c ∈ l := by
  intro hc
  cases l with
  | nil =>
    have h0 : stripQuotesL [] = stripTrail [] := rfl
    rw [h0] at hc
    exact mem_stripTrail _ _ hc
  | cons c0 rest =>
    have h0 : stripQuotesL (c0 :: rest) =
        if isQuote c0 then stripTrail rest else stripTrail (c0 :: rest) := rfl
    rw [h0] at hc
    by_cases hq : isQuote c0
    · simp only [hq, if_true] at hc
      exact List.mem_cons_of_mem c0 (mem_stripTrail _ _ hc)
    · simp only [hq, if_false] at hc
      exact mem_stripTrail _ _ hc

theorem mem_cleanStr (s : String) (c : Char) :
    c ∈ (cleanStr s).data → c ∈ s.data := by
  intro hc
  have h1 : (cleanStr s).data = stripQuotesL (jsTrimCore s.data) := rfl
  rw [h1] at hc
  exact mem_jsTrimCore _ _ (mem_stripQuotesL _ _ hc)

/-- Any string matched by either Instagram pattern contains a character
lower-casing to `i`. -/
theorem isInstagramUrl_has_i (s : String) (h : isInstagramUrl s = true) :
    ∃ c ∈ s.data, lcChar c = 'i' := by
  unfold isInstagramUrl at h
  rcases Bool.or_eq_true_iff.mp h with h1 | h1
  · obtain ⟨c, hc, hi⟩ := firstMatch_has_i _ h1
    exact ⟨c, mem_cleanStr s c hc, hi⟩
  · obtain ⟨c, hc, hi⟩ := domFound_has_i _ h1
    exact ⟨c, mem_cleanStr s c hc, hi⟩

/-- `String(n)` never looks like an Instagram URL. -/
theorem isInstagramUrl_intToDecString (k : Int) :
    isInstagramUrl (intToDecString k) = false := by
  by_contra hne
  have h : isInstagramUrl (intToDecString k) = true := by
    cases hb : isInstagramUrl (intToDecString k)
    · exact absurd hb hne
    · rfl
  obtain ⟨c, hc, hi⟩ := isInstagramUrl_has_i _ h
  rcases intToDecString_chars k c hc with rfl | ⟨m, rfl⟩
  · exact absurd hi (by decide)
  · exact absurd hi (digitChar_props m).2.2.1

/-! ### Decimal strings are numeric-looking -/

theorem jsTrimL_of_nonws (l : List Char)
    (h : ∀ c ∈ l, isWsChar c = false) : jsTrimL l = l := by
  cases l with
  | nil => rfl
  | cons c cs =>
    have hc := h c (List.mem_cons_self c cs)
    simp [jsTrimL, List.dropWhile_cons, hc]

theorem jsTrimCore_of_nonws (l : List Char)
    (h : ∀ c ∈ l, isWsChar c = false) : jsTrimCore l = l := by
  unfold jsTrimCore
  rw [jsTrimL_of_nonws l h]
  rw [jsTrimL_of_nonws l.reverse fun c hc => h c (List.mem_reverse.mp hc)]
  exact List.reverse_reverse l

theorem takeWhile_of_all (p : Char → Bool) :
    ∀ (l : List Char), (∀ c ∈ l, p c = true) →
      l.takeWhile p = l ∧ l.dropWhile p = [] := by
  intro l
  induction l with
  | nil => intro _; exact ⟨rfl, rfl⟩
  | cons c cs ih =>
    intro h
    have hc := h c (List.mem_cons_self c cs)
    have hr := ih fun c' hc' => h c' (List.mem_cons_of_mem c hc')
    constructor
    · rw [List.takeWhile_cons, hc]
      simp [hr.1]
    · rw [List.dropWhile_cons, hc]
      simp [hr.2]

theorem mantissaOk_of_digits (l : List Char) (hne : l ≠ [])
    (h : ∀ c ∈ l, isDig c = true) : mantissaOk l = true := by
  have hs := takeWhile_of_all isDig l h
  unfold mantissaOk spanDigits
  rw [hs.1, hs.2]
  have : l.isEmpty = false := by
    cases l
    · exact absurd rfl hne
    · rfl
  simp [this, expOk]

theorem intToDecString_chars_dig (k : Int) :
    (∀ c ∈ (intToDecString k).data, isWsChar c = false) ∧
    (∀ c ∈ (natDigsF k.toNat k.toNat), isDig c = true) ∧
    (∀ c ∈ (natDigsF k.natAbs k.natAbs), isDig c = true) := by
  refine ⟨?_, ?_, ?_⟩
  · intro c hc
    rcases intToDecString_chars k c hc with rfl | ⟨m, rfl⟩
    · decide
    · exact (digitChar_props m).2.1
  · intro c hc
    obtain ⟨m, rfl⟩ := (natDigsF_shape _ _).2 c hc
    exact (digitChar_props m).1
  · intro c hc
    obtain ⟨m, rfl⟩ := (natDigsF_shape _ _).2 c hc
    exact (digitChar_props m).1

theorem jsTrim_intToDecString (k : Int) :
    jsTrim (intToDecString k) = intToDecString k := by
  unfold jsTrim
  rw [jsTrimCore_of_nonws _ (intToDecString_chars_dig k).1]

theorem intToDecString_ne_nil_str (k : Int) : intToDecString k ≠ "" := fun hc =>
  intToDecString_ne_empty k (congrArg String.data hc)

theorem decNumOk_intToDecString (k : Int) :
    decNumOk (intToDecString k).data = true := by
  by_cases hneg : k < 0
  · rw [intToDecString_data_neg k hneg]
    have hm := mantissaOk_of_digits (natDigsF k.natAbs k.natAbs)
      (natDigsF_shape _ _).1 (intToDecString_chars_dig k).2.2
    unfold decNumOk
    simp [hm]
  · rw [intToDecString_data_nonneg k hneg]
    have hm := mantissaOk_of_digits (natDigsF k.toNat k.toNat)
      (natDigsF_shape _ _).1 (intToDecString_chars_dig k).2.1
    cases hl : natDigsF k.toNat k.toNat with
    | nil => exact absurd hl (natDigsF_shape _ _).1
    | cons c cs =>
      have hcd : ∃ m, c = digitChar m :=
        (natDigsF_shape _ _).2 c (by rw [hl]; exact List.mem_cons_self c cs)
      obtain ⟨m, rfl⟩ := hcd
      rw [hl] at hm
      unfold decNumOk
      simp [(digitChar_props m).2.2.2.1, (digitChar_props m).2.2.2.2, hm]

/-- `String(n)` converts cleanly with `Number(...)`: not NaN. -/
theorem jsNumberIsNaN_intToDecString (k : Int) :
    jsNumberIsNaN (intToDecString k) = false := by
  unfold jsNumberIsNaN
  rw [jsTrim_intToDecString, if_neg (intToDecString_ne_nil_str k),
    decNumOk_intToDecString]
  simp

/-- A cell holding a written integer is acceptable again on a repeat
pass: not a URL, non-empty, numeric-looking. -/
theorem candOkV_num (n : Int) : candOkV (.num n) = true := by
  by_cases h0 : n = 0
  · subst h0; decide
  · have hval : getCellValue (.num n) = intToDecString n := by
      simp [getCellValue, h0]
    have hempty : jsIsEmptyStr (intToDecString n) = false := by
      unfold jsIsEmptyStr
      rw [jsTrim_intToDecString]
      simp [intToDecString_ne_nil_str n]
    simp [candOkV, hval, isInstagramUrl_intToDecString, hempty,
      jsNumberIsNaN_intToDecString]

/-! ### Writer structure lemmas -/

theorem candOkV_not_url (v : JSVal) (h : candOkV v = true) :
    isInstagramUrl (getCellValue v) = false := by
  unfold candOkV at h
  by_cases hurl : isInstagramUrl (getCellValue v) = true
  · simp [hurl] at h
  · cases hb : isInstagramUrl (getCellValue v)
    · rfl
    · exact absurd hb hurl

theorem findGo_some :
    ∀ (cs : List (Nat × Nat)) (ws : Ws) (l : PLink) (c : Nat × Nat),
      findGo ws l cs = some c →
      c ∈ cs ∧ candOkV (ws c) = true ∧ c ≠ (l.row, l.col) := by
  intro cs
  induction cs with
  | nil => intro ws l c h; exact absurd h (by simp [findGo])
  | cons c0 rest ih =>
    intro ws l c h
    unfold findGo at h
    by_cases h1 : c0 = (l.row, l.col)
    · rw [if_pos h1] at h
      obtain ⟨hm, hok, hne⟩ := ih ws l c h
      exact ⟨List.mem_cons_of_mem c0 hm, hok, hne⟩
    · rw [if_neg h1] at h
      by_cases h2 : candOk ws c0 = true
      · rw [if_pos h2] at h
        obtain rfl := (Option.some.injEq _ _).mp h
        exact ⟨List.mem_cons_self c0 rest, h2, h1⟩
      · have h2' : candOk ws c0 = false := by
          cases hb : candOk ws c0
          · rfl
          · exact absurd hb h2
        rw [h2', if_neg (by simp)] at h
        obtain ⟨hm, hok, hne⟩ := ih ws l c h
        exact ⟨List.mem_cons_of_mem c0 hm, hok, hne⟩

theorem findGo_congr :
    ∀ (cs : List (Nat × Nat)) (ws ws' : Ws) (l : PLink),
      (∀ c ∈ cs, candOkV (ws c) = candOkV (ws' c)) →
      findGo ws l cs = findGo ws' l cs := by
  intro cs
  induction cs with
  | nil => intro ws ws' l _; rfl
  | cons c0 rest ih =>
    intro ws ws' l h
    have h0 := h c0 (List.mem_cons_self c0 rest)
    have hrest := fun c hc => h c (List.mem_cons_of_mem c0 hc)
    unfold findGo
    have hok : candOk ws c0 = candOk ws' c0 := h0
    rw [hok, ih ws ws' l hrest]

theorem findGo_none_of :
    ∀ (cs : List (Nat × Nat)) (ws : Ws) (l : PLink),
      (∀ c ∈ cs, c = (l.row, l.col) ∨ candOkV (ws c) = false) →
      findGo ws l cs = none := by
  intro cs
  induction cs with
  | nil => intro ws l _; rfl
  | cons c0 rest ih =>
    intro ws l h
    have hrest := ih ws l fun c hc => h c (List.mem_cons_of_mem c0 hc)
    unfold findGo
    rcases h c0 (List.mem_cons_self c0 rest) with h0 | h0
    · rw [if_pos h0, hrest]
    · by_cases h1 : c0 = (l.row, l.col)
      · rw [if_pos h1, hrest]
      · rw [if_neg h1]
        have : candOk ws c0 = false := h0
        rw [this, if_neg (by simp), hrest]

theorem stepW_eq_write (vm : List (String × MVal)) (ws : Ws) (l : PLink) :
    stepW vm ws l = (match stepWrite vm ws l with
      | none => ws
      | some w => store ws w.1 w.2) := by
  unfold stepW stepWrite
  cases h1 : lookupA vm l.url with
  | none => rfl
  | some v =>
    cases h2 : findSafeCell ws l with
    | none => rfl
    | some c =>
      by_cases h3 : isInstagramUrl (getCellValue (ws c)) = true
      · simp [h3]
      · simp [h3]

theorem stepWrite_char (vm : List (String × MVal)) (ws : Ws) (l : PLink)
    (w : (Nat × Nat) × JSVal) (h : stepWrite vm ws l = some w) :
    w.1 ∈ candidates l ∧ candOkV (ws w.1) = true ∧
    ∃ v, lookupA vm l.url = some v ∧ w.2 = writeVal v := by
  unfold stepWrite at h
  cases h1 : lookupA vm l.url with
  | none => rw [h1] at h; simp at h
  | some v =>
    rw [h1] at h
    cases h2 : findSafeCell ws l with
    | none => rw [h2] at h; simp at h
    | some c =>
      rw [h2] at h
      obtain ⟨hm, hok, _⟩ := findGo_some (candidates l) ws l c h2
      have hurl : isInstagramUrl (getCellValue (ws c)) = false :=
        candOkV_not_url _ hok
      simp only [hurl, Bool.false_eq_true, if_false, Option.some.injEq] at h
      rw [← h]
      exact ⟨hm, hok, v, rfl, rfl⟩

theorem stepWrite_congr (vm : List (String × MVal)) (ws ws' : Ws) (l : PLink)
    (h : ∀ p, candOkV (ws p) = candOkV (ws' p)) :
    stepWrite vm ws l = stepWrite vm ws' l := by
  unfold stepWrite
  cases h1 : lookupA vm l.url with
  | none => rfl
  | some v =>
    have hf : findSafeCell ws l = findSafeCell ws' l :=
      findGo_congr (candidates l) ws ws' l fun c _ => h c
    rw [hf]
    cases h2 : findSafeCell ws' l with
    | none => rfl
    | some c =>
      obtain ⟨_, hok', _⟩ := findGo_some (candidates l) ws' l c h2
      have hok : candOkV (ws c) = true := (h c).symm ▸ hok'
      simp only [candOkV_not_url _ hok, candOkV_not_url _ hok']

theorem updateExcel_cons (vm : List (String × MVal)) (l : PLink)
    (ls : List PLink) (ws : Ws) :
    updateExcelWithViews vm (l :: ls) ws =
      updateExcelWithViews vm ls (stepW vm ws l) := rfl

/-- Every cell the writer changes was acceptable — empty or
numeric-looking and not a link URL — in the original sheet. -/
theorem updateExcel_changed (vm : List (String × MVal)) :
    ∀ (links : List PLink) (ws : Ws) (p : Nat × Nat),
      updateExcelWithViews vm links ws p ≠ ws p → candOkV (ws p) = true := by
  intro links
  induction links with
  | nil => intro ws p h; exact absurd rfl h
  | cons l ls ih =>
    intro ws p h
    rw [updateExcel_cons] at h
    by_cases heq : stepW vm ws l p = ws p
    · have h2 : updateExcelWithViews vm ls (stepW vm ws l) p ≠ stepW vm ws l p := by
        rw [heq]; exact h
      have h3 := ih (stepW vm ws l) p h2
      rw [heq] at h3
      exact h3
    · rw [stepW_eq_write] at heq
      cases hw : stepWrite vm ws l with
      | none => rw [hw] at heq; exact absurd rfl heq
      | some w =>
        rw [hw] at heq
        by_cases hp : p = w.1
        · subst hp
          exact (stepWrite_char vm ws l w hw).2.1
        · have : store ws w.1 w.2 p = ws p := by simp [store, hp]
          exact absurd this heq

theorem update_eq_foldStores (vm : List (String × MVal)) :
    ∀ (links : List PLink) (ws : Ws),
      updateExcelWithViews vm links ws = foldStores ws (writesGo vm links ws) := by
  intro links
  induction links with
  | nil => intro ws; rfl
  | cons l ls ih =>
    intro ws
    rw [updateExcel_cons]
    cases hw : stepWrite vm ws l with
    | none =>
      have hstep : stepW vm ws l = ws := by rw [stepW_eq_write, hw]
      have hwr : writesGo vm (l :: ls) ws = writesGo vm ls ws := by
        show (match stepWrite vm ws l with
          | none => writesGo vm ls ws
          | some w => w :: writesGo vm ls (store ws w.1 w.2)) = writesGo vm ls ws
        rw [hw]
      rw [hstep, hwr, ih ws]
    | some w =>
      have hstep : stepW vm ws l = store ws w.1 w.2 := by rw [stepW_eq_write, hw]
      have hwr : writesGo vm (l :: ls) ws =
          w :: writesGo vm ls (store ws w.1 w.2) := by
        show (match stepWrite vm ws l with
          | none => writesGo vm ls ws
          | some w => w :: writesGo vm ls (store ws w.1 w.2)) =
          w :: writesGo vm ls (store ws w.1 w.2)
        rw [hw]
      rw [hstep, hwr, ih (store ws w.1 w.2)]
      rfl

/-- Every performed write lands on a cell that was acceptable (hence not
a link URL) in the sheet the run started from, and stores the converted
looked-up value of one of the links. -/
theorem writesGo_spec (vm : List (String × MVal)) :
    ∀ (links : List PLink) (ws : Ws), ∀ w ∈ writesGo vm links ws,
      candOkV (ws w.1) = true ∧
      ∃ l ∈ links, ∃ v, lookupA vm l.url = some v ∧ w.2 = writeVal v := by
  intro links
  induction links with
  | nil => intro ws w hw; exact absurd hw (List.not_mem_nil w)
  | cons l ls ih =>
    intro ws w hw
    cases hs : stepWrite vm ws l with
    | none =>
      have hwr : writesGo vm (l :: ls) ws = writesGo vm ls ws := by
        show (match stepWrite vm ws l with
          | none => writesGo vm ls ws
          | some w0 => w0 :: writesGo vm ls (store ws w0.1 w0.2)) = writesGo vm ls ws
        rw [hs]
      rw [hwr] at hw
      obtain ⟨hok, l', hl', hv⟩ := ih ws w hw
      exact ⟨hok, l', List.mem_cons_of_mem l hl', hv⟩
    | some w0 =>
      have hwr : writesGo vm (l :: ls) ws =
          w0 :: writesGo vm ls (store ws w0.1 w0.2) := by
        show (match stepWrite vm ws l with
          | none => writesGo vm ls ws
          | some w1 => w1 :: writesGo vm ls (store ws w1.1 w1.2)) =
          w0 :: writesGo vm ls (store ws w0.1 w0.2)
        rw [hs]
      rw [hwr] at hw
      obtain ⟨hc0, hok0, v0, hv0, hval0⟩ := stepWrite_char vm ws l w0 hs
      rcases List.mem_cons.mp hw with rfl | hw
      · exact ⟨hok0, l, List.mem_cons_self l ls, v0, hv0, hval0⟩
      · obtain ⟨hok, l', hl', hv⟩ := ih (store ws w0.1 w0.2) w hw
        refine ⟨?_, l', List.mem_cons_of_mem l hl', hv⟩
        by_cases hp : w.1 = w0.1
        · rw [hp]; exact hok0
        · have : store ws w0.1 w0.2 w.1 = ws w.1 := by simp [store, hp]
          rw [this] at hok
          exact hok

theorem lookupA_mem :
    ∀ (m : List (String × MVal)) (k : String) (v : MVal),
      lookupA m k = some v → (k, v) ∈ m := by
  intro m
  induction m with
  | nil => intro k v h; exact absurd h (by simp [lookupA])
  | cons kv rest ih =>
    intro k v h
    obtain ⟨a, b⟩ := kv
    unfold lookupA at h
    by_cases h0 : a = k
    · subst h0
      rw [if_pos rfl] at h
      obtain rfl := (Option.some.injEq _ _).mp h
      exact List.mem_cons_self _ _
    · rw [if_neg h0] at h
      exact List.mem_cons_of_mem _ (ih k v h)

theorem writeVal_outcome (o : MetricOutcome) :
    writeVal (outcomeVal o) = renderOutcome o := by
  cases o <;> rfl

/-- The writer writes only within the candidate cells of the plan. -/
theorem updateExcel_frame (vm : List (String × MVal)) :
    ∀ (links : List PLink) (ws : Ws) (p : Nat × Nat),
      p ∉ links.flatMap candidates → updateExcelWithViews vm links ws p = ws p := by
  intro links
  induction links with
  | nil => intro ws p _; rfl
  | cons l ls ih =>
    intro ws p hp
    have hsplit : p ∉ candidates l ∧ p ∉ ls.flatMap candidates := by
      constructor
      · intro hc
        exact hp (by
          rw [List.flatMap_cons, List.mem_append]
          exact Or.inl hc)
      · intro hc
        exact hp (by
          rw [List.flatMap_cons, List.mem_append]
          exact Or.inr hc)
    rw [updateExcel_cons]
    have hstep : stepW vm ws l p = ws p := by
      rw [stepW_eq_write]
      cases hw : stepWrite vm ws l with
      | none => rfl
      | some w =>
        have hc := (stepWrite_char vm ws l w hw).1
        have hne : p ≠ w.1 := fun hh => hsplit.1 (hh ▸ hc)
        simp [store, hne]
    rw [ih (stepW vm ws l) p hsplit.2, hstep]

theorem writesGo_congr (vm : List (String × MVal)) :
    ∀ (links : List PLink) (ws ws' : Ws),
      (∀ p, candOkV (ws p) = candOkV (ws' p)) →
      writesGo vm links ws = writesGo vm links ws' := by
  intro links
  induction links with
  | nil => intro ws ws' _; rfl
  | cons l ls ih =>
    intro ws ws' h
    have hsw : stepWrite vm ws l = stepWrite vm ws' l := stepWrite_congr vm ws ws' l h
    show (match stepWrite vm ws l with
      | none => writesGo vm ls ws
      | some w => w :: writesGo vm ls (store ws w.1 w.2)) =
      (match stepWrite vm ws' l with
      | none => writesGo vm ls ws'
      | some w => w :: writesGo vm ls (store ws' w.1 w.2))
    rw [hsw]
    cases hw : stepWrite vm ws' l with
    | none => exact ih ws ws' h
    | some w =>
      have hR : ∀ p, candOkV (store ws w.1 w.2 p) = candOkV (store ws' w.1 w.2 p) := by
        intro p
        by_cases hp : p = w.1
        · simp [store, hp]
        · simp [store, hp, h p]
      show w :: writesGo vm ls (store ws w.1 w.2) =
        w :: writesGo vm ls (store ws' w.1 w.2)
      rw [ih (store ws w.1 w.2) (store ws' w.1 w.2) hR]

/-- After an all-Success run, every cell classifies exactly as before:
writes turn empty/numeric cells into numeric cells. -/
theorem update_R (vm : List (String × MVal))
    (hvm : ∀ kv ∈ vm, ∃ n : Int, kv.2 = MVal.num n) :
    ∀ (links : List PLink) (ws : Ws) (p : Nat × Nat),
      candOkV (updateExcelWithViews vm links ws p) = candOkV (ws p) := by
  intro links
  induction links with
  | nil => intro ws p; rfl
  | cons l ls ih =>
    intro ws p
    rw [updateExcel_cons]
    rw [ih (stepW vm ws l) p]
    rw [stepW_eq_write]
    cases hw : stepWrite vm ws l with
    | none => rfl
    | some w =>
      show candOkV (store ws w.1 w.2 p) = candOkV (ws p)
      by_cases hp : p = w.1
      · subst hp
        obtain ⟨_, hok, v, hv, hval⟩ := stepWrite_char vm ws l w hw
        obtain ⟨n, hn⟩ := hvm (l.url, v) (lookupA_mem vm l.url v hv)
        have hn2 : v = MVal.num n := hn
        have h1 : store ws w.1 w.2 w.1 = JSVal.num n := by
          simp [store, hval, hn2, writeVal]
        rw [h1, candOkV_num, hok]
      · have : store ws w.1 w.2 p = ws p := by simp [store, hp]
        rw [this]

theorem foldStores_cases :
    ∀ (wr : List ((Nat × Nat) × JSVal)) (s : Ws) (p : Nat × Nat),
      (∃ v, foldStores s wr p = v ∧ ∀ t : Ws, foldStores t wr p = v) ∨
      (foldStores s wr p = s p ∧ ∀ t : Ws, foldStores t wr p = t p) := by
  intro wr
  induction wr with
  | nil => intro s p; exact Or.inr ⟨rfl, fun t => rfl⟩
  | cons w rest ih =>
    intro s p
    have hcons : ∀ t : Ws, foldStores t (w :: rest) p =
        foldStores (store t w.1 w.2) rest p := fun t => rfl
    rcases ih (store s w.1 w.2) p with ⟨v, hv, hall⟩ | ⟨h1, hall⟩
    · exact Or.inl ⟨v, by rw [hcons s]; exact hv,
        fun t => by rw [hcons t]; exact hall (store t w.1 w.2)⟩
    · by_cases hp : p = w.1
      · refine Or.inl ⟨w.2, ?_, ?_⟩
        · rw [hcons s, hall (store s w.1 w.2)]
          simp [store, hp]
        · intro t
          rw [hcons t, hall (store t w.1 w.2)]
          simp [store, hp]
      · refine Or.inr ⟨?_, ?_⟩
        · rw [hcons s, h1]
          simp [store, hp]
        · intro t
          rw [hcons t, hall (store t w.1 w.2)]
          simp [store, hp]

theorem foldStores_idem (wr : List ((Nat × Nat) × JSVal)) (s : Ws) (p : Nat × Nat) :
    foldStores (foldStores s wr) wr p = foldStores s wr p := by
  rcases foldStores_cases wr s p with ⟨v, hv, hall⟩ | ⟨h1, hall⟩
  · rw [hall (foldStores s wr), hv]
  · rw [hall (foldStores s wr)]

/-! ### The writer claims -/

/-- C7: the client Spreadsheet Writer re-validates at write time: a cell
whose value is a link URL is never written (it fails both the safe-cell
walk and the final double-check, so the link's write is relocated or
skipped rather than overwriting the link), and every performed write
stores exactly the outcome's rendering — the integer for `Success`, the
sentinel text for `NotAvailable`/`Error`. -/
theorem c7_writer_revalidates (vm : List (String × MVal)) (links : List PLink)
    (ws : Ws) (hvm : ∀ kv ∈ vm, ∃ o : MetricOutcome, kv.2 = outcomeVal o) :
    (∀ p, isInstagramUrl (getCellValue (ws p)) = true →
      updateExcelWithViews vm links ws p = ws p) ∧
    (∀ w ∈ writesOf vm links ws,
      isInstagramUrl (getCellValue (ws w.1)) = false ∧
      ∃ l ∈ links, ∃ o : MetricOutcome,
        lookupA vm l.url = some (outcomeVal o) ∧ w.2 = renderOutcome o) ∧
    updateExcelWithViews vm links ws = foldStores ws (writesOf vm links ws) := by
  refine ⟨?_, ?_, update_eq_foldStores vm links ws⟩
  · intro p hurl
    by_contra hne
    have hok := updateExcel_changed vm links ws p hne
    rw [candOkV_not_url _ hok] at hurl
    exact absurd hurl (by simp)
  · intro w hw
    obtain ⟨hok, l, hl, v, hv, hval⟩ := writesGo_spec vm links ws w hw
    obtain ⟨o, ho⟩ := hvm (l.url, v) (lookupA_mem vm l.url v hv)
    simp only at ho
    subst ho
    refine ⟨candOkV_not_url _ hok, l, hl, o, hv, ?_⟩
    rw [hval, writeVal_outcome]

/-- Witness for `c7_writer_revalidates`: one Success outcome; the link
cell (1,1) of `cexWs7` holds a URL and survives the run unchanged. -/
theorem c7_writer_revalidates_witness :
    (urlA, MVal.num 5).2 = outcomeVal (.success 5) ∧
    isInstagramUrl (getCellValue (cexWs7 (1, 1))) = true ∧
    updateExcelWithViews [(urlA, MVal.num 5)] [cexLink7] cexWs7 (1, 1) =
      cexWs7 (1, 1) :=
  ⟨rfl, by decide,
   (c7_writer_revalidates [(urlA, MVal.num 5)] [cexLink7] cexWs7
      (fun kv hkv => by
        rw [List.mem_singleton] at hkv
        exact ⟨.success 5, by simp [hkv, outcomeVal]⟩)).1 (1, 1) (by decide)⟩

/-- C8 (amended): the writer never changes a cell outside the union of
the per-link candidate cells (resolved target, right of link, below
link) — not only the resolved targets — and when every outcome is a
numeric `Success`, re-running it with the same outcomes is idempotent:
the second run performs the same writes and changes nothing. -/
theorem c8_writer_frame_idempotent (vm : List (String × MVal))
    (links : List PLink) (ws : Ws) :
    (∀ p, p ∉ links.flatMap candidates →
      updateExcelWithViews vm links ws p = ws p) ∧
    ((∀ kv ∈ vm, ∃ n : Int, kv.2 = MVal.num n) → ∀ p,
      updateExcelWithViews vm links (updateExcelWithViews vm links ws) p =
        updateExcelWithViews vm links ws p) := by
  refine ⟨fun p hp => updateExcel_frame vm links ws p hp, ?_⟩
  intro hvm p
  have hR : ∀ q, candOkV (updateExcelWithViews vm links ws q) = candOkV (ws q) :=
    update_R vm hvm links ws
  calc updateExcelWithViews vm links (updateExcelWithViews vm links ws) p
      = foldStores (updateExcelWithViews vm links ws)
          (writesGo vm links (updateExcelWithViews vm links ws)) p := by
        rw [update_eq_foldStores]
    _ = foldStores (updateExcelWithViews vm links ws)
          (writesGo vm links ws) p := by
        rw [writesGo_congr vm links _ ws hR]
    _ = foldStores (foldStores ws (writesGo vm links ws))
          (writesGo vm links ws) p := by
        rw [← update_eq_foldStores]
    _ = foldStores ws (writesGo vm links ws) p :=
        foldStores_idem _ ws p
    _ = updateExcelWithViews vm links ws p := by
        rw [← update_eq_foldStores]

/-- Witness for `c8_writer_frame_idempotent`: the all-Success single-link
run on `cexWs7`; (5,5) is outside the candidate set and untouched, and
the second run agrees with the first at the written cell (1,2). -/
theorem c8_writer_frame_idempotent_witness :
    (((5, 5) : Nat × Nat) ∉ [cexLink7].flatMap candidates ∧
      updateExcelWithViews [(urlA, MVal.num 5)] [cexLink7] cexWs7 (5, 5) =
        cexWs7 (5, 5)) ∧
    updateExcelWithViews [(urlA, MVal.num 5)] [cexLink7]
        (updateExcelWithViews [(urlA, MVal.num 5)] [cexLink7] cexWs7) (1, 2) =
      updateExcelWithViews [(urlA, MVal.num 5)] [cexLink7] cexWs7 (1, 2) :=
  ⟨⟨by decide,
    (c8_writer_frame_idempotent [(urlA, MVal.num 5)] [cexLink7] cexWs7).1
      (5, 5) (by decide)⟩,
   (c8_writer_frame_idempotent [(urlA, MVal.num 5)] [cexLink7] cexWs7).2
     (fun kv hkv => by
       rw [List.mem_singleton] at hkv
       exact ⟨5, by simp [hkv]⟩) (1, 2)⟩

/-- C10: the client writer only ever writes into a cell that is empty or
numeric-looking and not a link URL (every changed cell was such in the
original sheet, so non-empty non-numeric text and link URLs are never
modified), and when none of a link's candidate cells qualifies the
link's write is skipped entirely. -/
theorem c10_writer_only_safe_cells (vm : List (String × MVal))
    (links : List PLink) (ws : Ws) :
    (∀ p, updateExcelWithViews vm links ws p ≠ ws p → candOkV (ws p) = true) ∧
    (∀ (ws2 : Ws) (l : PLink),
      (∀ c ∈ candidates l, c = (l.row, l.col) ∨ candOkV (ws2 c) = false) →
      stepW vm ws2 l = ws2) := by
  refine ⟨fun p h => updateExcel_changed vm links ws p h, ?_⟩
  intro ws2 l h
  have hnone : findSafeCell ws2 l = none := findGo_none_of (candidates l) ws2 l h
  unfold stepW
  cases h1 : lookupA vm l.url with
  | none => rfl
  | some v => rw [hnone]

/-- Witness for `c10_writer_only_safe_cells`: the run on `cexWs8`
changes (2,1), which was indeed empty, and a link whose three candidates
all hold URLs is skipped. -/
theorem c10_writer_only_safe_cells_witness :
    (updateExcelWithViews [(urlA, MVal.num 5)] [cexLink8] cexWs8 (2, 1) ≠
        cexWs8 (2, 1) ∧
      candOkV (cexWs8 (2, 1)) = true) ∧
    ((∀ c ∈ candidates cexLink8,
        c = (cexLink8.row, cexLink8.col) ∨ candOkV (cexWs7 c) = false) →
      stepW [(urlA, MVal.num 5)] cexWs7 cexLink8 = cexWs7) :=
  ⟨⟨by decide,
    (c10_writer_only_safe_cells [(urlA, MVal.num 5)] [cexLink8] cexWs8).1
      (2, 1) (by decide)⟩,
   fun h => (c10_writer_only_safe_cells [(urlA, MVal.num 5)] [cexLink8] cexWs8).2
     cexWs7 cexLink8 h⟩

end Idoom
